import Mathlib

/-!
Verification of the composable text/byte transformation toolkit: a shallow
embedding of the operation registry, the transform algorithms, the recipe
execution engine and the format auto-detector, together with theorems that
settle the specification claims.

Modelling conventions used throughout:
* JS strings are modelled by Lean `String` (a list of Unicode scalar values);
  `charCodeAt`-style code-unit access coincides with `Char.toNat` on the
  Basic Multilingual Plane, which covers every input the claims touch.
* JS numbers that the code manipulates are integer-valued; they are modelled
  by `Int` (or `Nat` where the source keeps them non-negative).
* Loosely-typed parameter maps are association lists of `Value`s; an absent
  key models `undefined`.
* Asynchronous platform primitives (Web Crypto digests/HMAC, locale-aware
  comparison) are suspension points local to one step (spec section 5); they
  are modelled as explicit functional parameters collected in `Platform`.
* Thrown JS errors are modelled with `Except String`.
-/

namespace CryptoToolkit

/-- Values of the loosely-typed parameter maps: strings, integer-valued
numbers, booleans and null.  An absent key models `undefined`. -/
inductive Value where
  | str  : String → Value
  | num  : Int → Value
  | bool : Bool → Value
  | null : Value
deriving DecidableEq, Repr

/-- A parameter map `params`, as passed to an operation's `fn`. -/
def Params := List (String × Value)

instance : DecidableEq Params := inferInstanceAs (DecidableEq (List (String × Value)))

/-- Lookup `params[name]`; `none` models `undefined`. -/
def pget (params : Params) (name : String) : Option Value :=
  (List.find? (fun kv => kv.1 = name) params).map (fun kv => kv.2)

/-- JS truthiness of `params[name]`: `undefined`, `null`, `""`, `0` and
`false` are falsy, everything else truthy. -/
def jsTruthy : Option Value → Bool
  | none => false
  | some (Value.str s) => !(s = "")
  | some (Value.num n) => !(n = 0)
  | some (Value.bool b) => b
  | some Value.null => false

/-- JS `String(v)` coercion of a possibly-undefined value. -/
def jsValToString : Option Value → String
  | none => "undefined"
  | some (Value.str s) => s
  | some (Value.num n) => toString n
  | some (Value.bool b) => if b then "true" else "false"
  | some Value.null => "null"

/-- The character class of the JS regex `\s` (ECMAScript WhiteSpace together
with LineTerminator), also the set trimmed by `String.prototype.trim` and
skipped by `parseInt`. -/
def jsWhitespace (c : Char) : Bool :=
  c.toNat = 0x09 ∨ c.toNat = 0x0A ∨ c.toNat = 0x0B ∨ c.toNat = 0x0C ∨
  c.toNat = 0x0D ∨ c.toNat = 0x20 ∨ c.toNat = 0xA0 ∨ c.toNat = 0x1680 ∨
  (0x2000 ≤ c.toNat ∧ c.toNat ≤ 0x200A) ∨ c.toNat = 0x2028 ∨
  c.toNat = 0x2029 ∨ c.toNat = 0x202F ∨ c.toNat = 0x205F ∨
  c.toNat = 0x3000 ∨ c.toNat = 0xFEFF

/-- Value of a decimal digit character, `none` otherwise. -/
def decDigit? (c : Char) : Option Nat :=
  if '0' ≤ c ∧ c ≤ '9' then some (c.toNat - 48) else none

/-- Value of a hexadecimal digit character (either case), `none` otherwise. -/
def hexDigit? (c : Char) : Option Nat :=
  if '0' ≤ c ∧ c ≤ '9' then some (c.toNat - 48)
  else if 'a' ≤ c ∧ c ≤ 'f' then some (c.toNat - 87)
  else if 'A' ≤ c ∧ c ≤ 'F' then some (c.toNat - 55)
  else none

/-- Accumulate the longest prefix of digits (per `digit?`) into a number. -/
def digitsAcc (digit? : Char → Option Nat) (base : Nat) : List Char → Nat → Nat
  | [], acc => acc
  | c :: cs, acc =>
    match digit? c with
    | some d => digitsAcc digit? base cs (acc * base + d)
    | none => acc

/-- Parse the longest digit prefix; `none` (NaN) when there is no digit. -/
def digitsPrefix (digit? : Char → Option Nat) (base : Nat) (cs : List Char) :
    Option Nat :=
  match cs with
  | [] => none
  | c :: _ => if (digit? c).isSome then some (digitsAcc digit? base cs 0) else none

/-- Unsigned part of JS `parseInt(s)` with no radix argument: an optional
`0x`/`0X` prefix switches to base 16, otherwise base 10. -/
def jsParseIntBody : List Char → Option Nat
  | '0' :: x :: rest =>
    if x = 'x' ∨ x = 'X' then digitsPrefix hexDigit? 16 rest
    else digitsPrefix decDigit? 10 ('0' :: x :: rest)
  | cs => digitsPrefix decDigit? 10 cs

/-- Unsigned part of JS `parseInt(s, 16)`: an optional `0x`/`0X` prefix is
stripped, then hex digits. -/
def jsParseIntBody16 : List Char → Option Nat
  | '0' :: x :: rest =>
    if x = 'x' ∨ x = 'X' then digitsPrefix hexDigit? 16 rest
    else digitsPrefix hexDigit? 16 ('0' :: x :: rest)
  | cs => digitsPrefix hexDigit? 16 cs

/-- Sign handling shared by the `parseInt` variants. -/
def jsParseIntSigned (body : List Char → Option Nat) (s : String) : Option Int :=
  let cs := s.data.dropWhile jsWhitespace
  match cs with
  | '-' :: rest => (body rest).map (fun n => -(n : Int))
  | '+' :: rest => (body rest).map (fun n => (n : Int))
  | rest => (body rest).map (fun n => (n : Int))

/-- JS `parseInt(s)`: skip whitespace, optional sign, optional `0x` prefix
(base 16) else base 10, longest digit prefix; `none` models NaN. -/
def jsParseInt (s : String) : Option Int := jsParseIntSigned jsParseIntBody s

/-- JS `parseInt(s, 16)`. -/
def jsParseInt16 (s : String) : Option Int := jsParseIntSigned jsParseIntBody16 s

/-- JS `parseInt(params[name])`: the argument is coerced to a string first. -/
def jsParseIntV (v : Option Value) : Option Int := jsParseInt (jsValToString v)

/-- ToInt32: wrap an integer into the signed 32-bit range. -/
def toInt32 (x : Int) : Int := (x + 2 ^ 31) % 2 ^ 32 - 2 ^ 31

/-- ToUint32: wrap an integer into the unsigned 32-bit range. -/
def toUint32 (x : Int) : Int := x % 2 ^ 32

/-- Bitwise XOR on the low `k` bits, by explicit binary recursion (the kernel
reduces it without special support).  JS `^` on the unsigned views of 32-bit
values is `xorBits 32`. -/
def xorBits : Nat → Nat → Nat → Nat
  | 0, _, _ => 0
  | k + 1, a, b => (if a % 2 = b % 2 then 0 else 1) + 2 * xorBits k (a / 2) (b / 2)

/-- JS `^` of two values already in the unsigned 32-bit range. -/
def xor32 (a b : Nat) : Nat := xorBits 32 a b

/-- ASCII fragment of JS `toUpperCase` (per character).  The source never
relies on non-ASCII case mapping in any claimed behaviour. -/
def asciiUpperChar (c : Char) : Char :=
  if 'a' ≤ c ∧ c ≤ 'z' then Char.ofNat (c.toNat - 32) else c

/-- ASCII fragment of JS `toLowerCase` (per character). -/
def asciiLowerChar (c : Char) : Char :=
  if 'A' ≤ c ∧ c ≤ 'Z' then Char.ofNat (c.toNat + 32) else c

/-- JS `s.toUpperCase()` (ASCII fragment). -/
def jsToUpper (s : String) : String := String.mk (s.data.map asciiUpperChar)

/-- JS `s.toLowerCase()` (ASCII fragment). -/
def jsToLower (s : String) : String := String.mk (s.data.map asciiLowerChar)

/-- JS `s.trim()`: strip leading and trailing `\s` characters. -/
def jsTrim (s : String) : String :=
  String.mk (((s.data.dropWhile jsWhitespace).reverse.dropWhile jsWhitespace).reverse)

/-- Lowercase hex digit for a value below 16. -/
def hexChar (n : Nat) : Char :=
  if n < 10 then Char.ofNat (48 + n) else Char.ofNat (87 + n)

/-- Digits of `n` in base 16, by fuel-driven recursion (the fuel starts
above `n`, which always suffices since each step divides by 16). -/
def natToHexAux : Nat → Nat → List Char
  | 0, _ => []
  | fuel + 1, n =>
    if n < 16 then [hexChar n] else natToHexAux fuel (n / 16) ++ [hexChar (n % 16)]

/-- JS `n.toString(16)` for a non-negative integer (lowercase digits). -/
def natToHexList (n : Nat) : List Char := natToHexAux (n + 1) n

/-- Digits of `n` in base 2 (fuel-driven as for base 16). -/
def natToBinAux : Nat → Nat → List Char
  | 0, _ => []
  | fuel + 1, n =>
    if n < 2 then [Char.ofNat (48 + n)]
    else natToBinAux fuel (n / 2) ++ [Char.ofNat (48 + n % 2)]

/-- JS `n.toString(2)` for a non-negative integer. -/
def natToBinList (n : Nat) : List Char := natToBinAux (n + 1) n

/-- JS `str.padStart(n, c)` on a character list. -/
def padStartList (cs : List Char) (n : Nat) (p : Char) : List Char :=
  List.replicate (n - cs.length) p ++ cs

/-! ### UTF-8 (`TextEncoder` / `TextDecoder`)

`TextEncoder.encode` produces the UTF-8 bytes of a string;
`TextDecoder.decode` (default `utf-8`, non-fatal) runs the WHATWG UTF-8
decoder, which replaces every malformed subsequence with U+FFFD and strips a
leading byte-order mark. -/

/-- UTF-8 encoding of one Unicode scalar value. -/
def utf8EncodeChar (c : Char) : List Nat :=
  if c.toNat < 0x80 then [c.toNat]
  else if c.toNat < 0x800 then [0xC0 + c.toNat / 64, 0x80 + c.toNat % 64]
  else if c.toNat < 0x10000 then
    [0xE0 + c.toNat / 4096, 0x80 + c.toNat / 64 % 64, 0x80 + c.toNat % 64]
  else
    [0xF0 + c.toNat / 262144, 0x80 + c.toNat / 4096 % 64, 0x80 + c.toNat / 64 % 64,
      0x80 + c.toNat % 64]

/-- `TextEncoder.encode`: UTF-8 bytes of a string. -/
def utf8Encode (s : String) : List Nat := s.data.flatMap utf8EncodeChar

/-- The U+FFFD replacement character emitted for malformed input. -/
def repChar : Char := '�'

/-- Is `b` a UTF-8 continuation byte in the default range. -/
def utf8Cont (b : Nat) : Bool := 0x80 ≤ b ∧ b ≤ 0xBF

/-- WHATWG UTF-8 decoder (non-fatal mode): malformed subsequences become
U+FFFD, with the offending byte reprocessed as a potential lead byte, and a
truncated sequence at end of input becomes a single U+FFFD.  The
`0xE0`/`0xED`/`0xF0`/`0xF4` lead bytes restrict the first continuation byte
exactly as the specification's lower/upper boundaries do. -/
def utf8DecodeLoop : List Nat → List Char
  | [] => []
  | b :: bs =>
    if b ≤ 0x7F then Char.ofNat b :: utf8DecodeLoop bs
    else if b < 0xC2 then repChar :: utf8DecodeLoop bs
    else if b ≤ 0xDF then
      match bs with
      | [] => [repChar]
      | b1 :: bs1 =>
        if utf8Cont b1 then
          Char.ofNat ((b - 0xC0) * 64 + (b1 - 0x80)) :: utf8DecodeLoop bs1
        else repChar :: utf8DecodeLoop (b1 :: bs1)
    else if b ≤ 0xEF then
      match bs with
      | [] => [repChar]
      | b1 :: bs1 =>
        if (if b = 0xE0 then 0xA0 else 0x80) ≤ b1 ∧
            b1 ≤ (if b = 0xED then 0x9F else 0xBF) then
          match bs1 with
          | [] => [repChar]
          | b2 :: bs2 =>
            if utf8Cont b2 then
              Char.ofNat ((b - 0xE0) * 4096 + (b1 - 0x80) * 64 + (b2 - 0x80)) ::
                utf8DecodeLoop bs2
            else repChar :: utf8DecodeLoop (b2 :: bs2)
        else repChar :: utf8DecodeLoop (b1 :: bs1)
    else if b ≤ 0xF4 then
      match bs with
      | [] => [repChar]
      | b1 :: bs1 =>
        if (if b = 0xF0 then 0x90 else 0x80) ≤ b1 ∧
            b1 ≤ (if b = 0xF4 then 0x8F else 0xBF) then
          match bs1 with
          | [] => [repChar]
          | b2 :: bs2 =>
            if utf8Cont b2 then
              match bs2 with
              | [] => [repChar]
              | b3 :: bs3 =>
                if utf8Cont b3 then
                  Char.ofNat ((b - 0xF0) * 262144 + (b1 - 0x80) * 4096 +
                      (b2 - 0x80) * 64 + (b3 - 0x80)) :: utf8DecodeLoop bs3
                else repChar :: utf8DecodeLoop (b3 :: bs3)
            else repChar :: utf8DecodeLoop (b2 :: bs2)
        else repChar :: utf8DecodeLoop (b1 :: bs1)
    else repChar :: utf8DecodeLoop bs

/-- BOM removal of the UTF-8 decode hook (`ignoreBOM` defaults to false). -/
def stripBOM : List Nat → List Nat
  | 0xEF :: 0xBB :: 0xBF :: rest => rest
  | bs => bs

/-- `new TextDecoder().decode(bytes)`. -/
def textDecode (bs : List Nat) : String := String.mk (utf8DecodeLoop (stripBOM bs))

/-- Range facts for a character's scalar value, from the `Char` invariant. -/
theorem char_toNat_valid (c : Char) :
    c.toNat < 0xd800 ∨ (0xdfff < c.toNat ∧ c.toNat < 0x110000) := c.valid

/-- Decoding consumes exactly the encoding of one character and recovers it. -/
theorem utf8DecodeLoop_encodeChar (c : Char) (bs : List Nat) :
    utf8DecodeLoop (utf8EncodeChar c ++ bs) = c :: utf8DecodeLoop bs := by
  have hval := char_toNat_valid c
  have hofn : Char.ofNat c.toNat = c := Char.ofNat_toNat c
  by_cases h1 : c.toNat < 0x80
  · have he : utf8EncodeChar c = [c.toNat] := by
      rw [utf8EncodeChar, if_pos h1]
    have hc1 : c.toNat ≤ 0x7F := by omega
    rw [he, List.cons_append, List.nil_append, utf8DecodeLoop.eq_def]
    simp only [hc1, if_pos, hofn]
  · by_cases h2 : c.toNat < 0x800
    · have he : utf8EncodeChar c = [0xC0 + c.toNat / 64, 0x80 + c.toNat % 64] := by
        rw [utf8EncodeChar, if_neg h1, if_pos h2]
      have hc1 : ¬(0xC0 + c.toNat / 64 ≤ 0x7F) := by omega
      have hc2 : ¬(0xC0 + c.toNat / 64 < 0xC2) := by omega
      have hc3 : 0xC0 + c.toNat / 64 ≤ 0xDF := by omega
      have hcont : utf8Cont (0x80 + c.toNat % 64) = true := by
        simp only [utf8Cont, decide_eq_true_eq]; omega
      have harg : (0xC0 + c.toNat / 64 - 0xC0) * 64 + (0x80 + c.toNat % 64 - 0x80) =
          c.toNat := by omega
      rw [he, List.cons_append, List.cons_append, List.nil_append, utf8DecodeLoop.eq_def]
      simp only [hc1, hc2, hc3, hcont, if_pos, if_neg, if_true, if_false,
        ite_true, ite_false, harg, hofn]
    · by_cases h3 : c.toNat < 0x10000
      · have he : utf8EncodeChar c =
            [0xE0 + c.toNat / 4096, 0x80 + c.toNat / 64 % 64, 0x80 + c.toNat % 64] := by
          rw [utf8EncodeChar, if_neg h1, if_neg h2, if_pos h3]
        have hc1 : ¬(0xE0 + c.toNat / 4096 ≤ 0x7F) := by omega
        have hc2 : ¬(0xE0 + c.toNat / 4096 < 0xC2) := by omega
        have hc3 : ¬(0xE0 + c.toNat / 4096 ≤ 0xDF) := by omega
        have hc4 : 0xE0 + c.toNat / 4096 ≤ 0xEF := by omega
        have hb1 : ((if 0xE0 + c.toNat / 4096 = 0xE0 then 0xA0 else 0x80) ≤
              0x80 + c.toNat / 64 % 64 ∧
            0x80 + c.toNat / 64 % 64 ≤
              (if 0xE0 + c.toNat / 4096 = 0xED then 0x9F else 0xBF)) := by
          constructor
          · split <;> omega
          · split <;> omega
        have hcont : utf8Cont (0x80 + c.toNat % 64) = true := by
          simp only [utf8Cont, decide_eq_true_eq]; omega
        have harg : (0xE0 + c.toNat / 4096 - 0xE0) * 4096 +
            (0x80 + c.toNat / 64 % 64 - 0x80) * 64 + (0x80 + c.toNat % 64 - 0x80) =
            c.toNat := by omega
        rw [he, List.cons_append, List.cons_append, List.cons_append, List.nil_append,
          utf8DecodeLoop.eq_def]
        simp only [hc1, hc2, hc3, hc4, hb1, hb1.1, hb1.2, hcont, if_pos, if_neg, if_true,
          if_false, ite_true, ite_false, and_self, true_and, and_true, harg, hofn]
      · have he : utf8EncodeChar c =
            [0xF0 + c.toNat / 262144, 0x80 + c.toNat / 4096 % 64,
              0x80 + c.toNat / 64 % 64, 0x80 + c.toNat % 64] := by
          rw [utf8EncodeChar, if_neg h1, if_neg h2, if_neg h3]
        have hc1 : ¬(0xF0 + c.toNat / 262144 ≤ 0x7F) := by omega
        have hc2 : ¬(0xF0 + c.toNat / 262144 < 0xC2) := by omega
        have hc3 : ¬(0xF0 + c.toNat / 262144 ≤ 0xDF) := by omega
        have hc4 : ¬(0xF0 + c.toNat / 262144 ≤ 0xEF) := by omega
        have hc5 : 0xF0 + c.toNat / 262144 ≤ 0xF4 := by omega
        have hb1 : ((if 0xF0 + c.toNat / 262144 = 0xF0 then 0x90 else 0x80) ≤
              0x80 + c.toNat / 4096 % 64 ∧
            0x80 + c.toNat / 4096 % 64 ≤
              (if 0xF0 + c.toNat / 262144 = 0xF4 then 0x8F else 0xBF)) := by
          constructor
          · split <;> omega
          · split <;> omega
        have hcont2 : utf8Cont (0x80 + c.toNat / 64 % 64) = true := by
          simp only [utf8Cont, decide_eq_true_eq]; omega
        have hcont3 : utf8Cont (0x80 + c.toNat % 64) = true := by
          simp only [utf8Cont, decide_eq_true_eq]; omega
        have harg : (0xF0 + c.toNat / 262144 - 0xF0) * 262144 +
            (0x80 + c.toNat / 4096 % 64 - 0x80) * 4096 +
            (0x80 + c.toNat / 64 % 64 - 0x80) * 64 + (0x80 + c.toNat % 64 - 0x80) =
            c.toNat := by omega
        rw [he, List.cons_append, List.cons_append, List.cons_append, List.cons_append,
          List.nil_append, utf8DecodeLoop.eq_def]
        simp only [hc1, hc2, hc3, hc4, hc5, hb1, hb1.1, hb1.2, hcont2, hcont3, if_pos,
          if_neg, if_true, if_false, ite_true, ite_false, and_self, true_and, and_true,
          harg, hofn]

/-- Decoding the concatenated encodings of a character list recovers it. -/
theorem utf8DecodeLoop_encodeList (l : List Char) :
    utf8DecodeLoop (l.flatMap utf8EncodeChar) = l := by
  induction l with
  | nil => rfl
  | cons c cs ih => rw [List.flatMap_cons, utf8DecodeLoop_encodeChar, ih]

/-- A list that does not start with the UTF-8 byte-order mark is unchanged by
BOM stripping. -/
theorem stripBOM_eq_self (bs : List Nat) (h : ∀ r, bs ≠ 0xEF :: 0xBB :: 0xBF :: r) :
    stripBOM bs = bs := by
  rw [stripBOM.eq_def]
  split
  · rename_i r; exact absurd rfl (h r)
  · rfl

/-- The UTF-8 encoding of a string whose first character is not U+FEFF does
not start with the byte-order mark. -/
theorem utf8Encode_no_bom (s : String) (h : s.data.head? ≠ some '﻿') (r : List Nat) :
    utf8Encode s ≠ 0xEF :: 0xBB :: 0xBF :: r := by
  unfold utf8Encode
  cases hd : s.data with
  | nil => simp
  | cons c cs =>
    have hc : c ≠ '﻿' := by
      intro he; rw [hd, he] at h; simp at h
    have hcn : c.toNat ≠ 0xFEFF := by
      intro he
      apply hc
      have : Char.ofNat c.toNat = Char.ofNat 0xFEFF := by rw [he]
      rwa [Char.ofNat_toNat] at this
    rw [List.flatMap_cons]
    by_cases h1 : c.toNat < 0x80
    · rw [utf8EncodeChar, if_pos h1]
      intro he
      have : c.toNat = 0xEF := by
        have := List.cons.injEq (c.toNat) _ 0xEF (0xBB :: 0xBF :: r) ▸ he
        exact (List.cons.inj he).1
      omega
    · by_cases h2 : c.toNat < 0x800
      · rw [utf8EncodeChar, if_neg h1, if_pos h2]
        intro he
        have h0 : 0xC0 + c.toNat / 64 = 0xEF := (List.cons.inj he).1
        omega
      · by_cases h3 : c.toNat < 0x10000
        · rw [utf8EncodeChar, if_neg h1, if_neg h2, if_pos h3]
          intro he
          have h0 : 0xE0 + c.toNat / 4096 = 0xEF := (List.cons.inj he).1
          have h1' : 0x80 + c.toNat / 64 % 64 = 0xBB := (List.cons.inj (List.cons.inj he).2).1
          have h2' : 0x80 + c.toNat % 64 = 0xBF :=
            (List.cons.inj (List.cons.inj (List.cons.inj he).2).2).1
          omega
        · rw [utf8EncodeChar, if_neg h1, if_neg h2, if_neg h3]
          intro he
          have h0 : 0xF0 + c.toNat / 262144 = 0xEF := (List.cons.inj he).1
          omega

/-- TextDecoder inverts TextEncoder on every string that does not begin with
U+FEFF (a leading byte-order mark would be stripped by the decoder). -/
theorem textDecode_utf8Encode (s : String) (h : s.data.head? ≠ some '﻿') :
    textDecode (utf8Encode s) = s := by
  unfold textDecode
  rw [stripBOM_eq_self _ (utf8Encode_no_bom s h)]
  unfold utf8Encode
  rw [utf8DecodeLoop_encodeList]

/-! ### Base64 (`btoa` / `atob`), `escape` / `unescape`, percent encoding -/

/-- Uppercase hex digit for a value below 16. -/
def hexUpperChar (n : Nat) : Char :=
  if n < 10 then Char.ofNat (48 + n) else Char.ofNat (55 + n)

/-- Character `n` of the Base64 alphabet. -/
def b64Char (n : Nat) : Char :=
  if n < 26 then Char.ofNat (65 + n)
  else if n < 52 then Char.ofNat (97 + (n - 26))
  else if n < 62 then Char.ofNat (48 + (n - 52))
  else if n = 62 then '+'
  else '/'

/-- Index of a character in the Base64 alphabet. -/
def b64Val? (c : Char) : Option Nat :=
  if 'A' ≤ c ∧ c ≤ 'Z' then some (c.toNat - 65)
  else if 'a' ≤ c ∧ c ≤ 'z' then some (c.toNat - 97 + 26)
  else if '0' ≤ c ∧ c ≤ '9' then some (c.toNat - 48 + 52)
  else if c = '+' then some 62
  else if c = '/' then some 63
  else none

/-- Base64-encode a byte list (values below 256), `=`-padded. -/
def b64EncBytes : List Nat → List Char
  | [] => []
  | [a] => [b64Char (a / 4), b64Char (a % 4 * 16), '=', '=']
  | [a, b] => [b64Char (a / 4), b64Char (a % 4 * 16 + b / 16), b64Char (b % 16 * 4), '=']
  | a :: b :: c :: rest =>
    b64Char (a / 4) :: b64Char (a % 4 * 16 + b / 16) ::
      b64Char (b % 16 * 4 + c / 64) :: b64Char (c % 64) :: b64EncBytes rest

/-- JS `btoa`: fails on any character above U+00FF, otherwise Base64 of the
code points. -/
def jsBtoa (s : String) : Option String :=
  if s.data.all (fun c => c.toNat < 256) then
    some (String.mk (b64EncBytes (s.data.map Char.toNat)))
  else none

/-- Reassemble bytes from 6-bit groups, discarding leftover bits (forgiving
base64; a single leftover group cannot occur after the length check). -/
def b64DecVals : List Nat → List Nat
  | [] => []
  | [_] => []
  | [a, b] => [a * 4 + b / 16]
  | [a, b, c] => [a * 4 + b / 16, b % 16 * 16 + c / 4]
  | a :: b :: c :: d :: rest =>
    (a * 4 + b / 16) :: (b % 16 * 16 + c / 4) :: (c % 4 * 64 + d) :: b64DecVals rest

/-- ASCII whitespace stripped by forgiving-base64 decoding. -/
def asciiWS (c : Char) : Bool :=
  c.toNat = 0x09 ∨ c.toNat = 0x0A ∨ c.toNat = 0x0C ∨ c.toNat = 0x0D ∨ c.toNat = 0x20

/-- Remove one or two trailing `=` characters. -/
def dropTrailingEq (cs : List Char) : List Char :=
  match cs.reverse with
  | '=' :: '=' :: r => r.reverse
  | '=' :: r => r.reverse
  | _ => cs

/-- JS `atob` (WHATWG forgiving-base64 decode): strip ASCII whitespace, strip
up to two trailing `=` when the length is a multiple of four, reject a
remainder of one, map through the alphabet and drop leftover bits.  The
result is a string of characters below U+0100. -/
def jsAtob (s : String) : Option String :=
  let cs := s.data.filter (fun c => !asciiWS c)
  let cs := if cs.length % 4 = 0 then dropTrailingEq cs else cs
  if cs.length % 4 = 1 then none
  else
    (cs.mapM b64Val?).map (fun vals => String.mk ((b64DecVals vals).map Char.ofNat))

/-- Characters `encodeURIComponent` leaves unescaped. -/
def uriUnreserved (c : Char) : Bool :=
  ('A' ≤ c ∧ c ≤ 'Z') ∨ ('a' ≤ c ∧ c ≤ 'z') ∨ ('0' ≤ c ∧ c ≤ '9') ∨
  c = '-' ∨ c = '_' ∨ c = '.' ∨ c = '!' ∨ c = '~' ∨ c = '*' ∨
  c = Char.ofNat 39 ∨ c = '(' ∨ c = ')'

/-- Percent-escape of one byte, uppercase hex. -/
def pctByte (b : Nat) : List Char := ['%', hexUpperChar (b / 16), hexUpperChar (b % 16)]

/-- JS `encodeURIComponent`: unreserved characters pass through, everything
else becomes the `%XX` escapes of its UTF-8 bytes. -/
def jsEncodeURIComponent (s : String) : String :=
  String.mk (s.data.flatMap fun c =>
    if uriUnreserved c then [c] else (utf8EncodeChar c).flatMap pctByte)

/-- Characters `escape` leaves unescaped. -/
def escapeSafe (c : Char) : Bool :=
  ('A' ≤ c ∧ c ≤ 'Z') ∨ ('a' ≤ c ∧ c ≤ 'z') ∨ ('0' ≤ c ∧ c ≤ '9') ∨
  c = '@' ∨ c = '*' ∨ c = '_' ∨ c = '+' ∨ c = '-' ∨ c = '.' ∨ c = '/'

/-- JS `escape`: safe characters pass, code points below 256 become `%XX`,
the rest `%uXXXX`. -/
def jsEscape (s : String) : String :=
  String.mk (s.data.flatMap fun c =>
    if escapeSafe c then [c]
    else if c.toNat < 256 then pctByte c.toNat
    else '%' :: 'u' :: [hexUpperChar (c.toNat / 4096), hexUpperChar (c.toNat / 256 % 16),
      hexUpperChar (c.toNat / 16 % 16), hexUpperChar (c.toNat % 16)])

/-- JS `unescape`: `%uXXXX` and `%XX` escapes become characters, anything
else passes through.  (A `%uXXXX` escape naming a lone surrogate is outside
the model; `unescape` is only ever applied to `encodeURIComponent` output,
which contains no `%u` escapes.) -/
def jsUnescape : List Char → List Char
  | [] => []
  | '%' :: 'u' :: a :: b :: c :: d :: rest =>
    match hexDigit? a, hexDigit? b, hexDigit? c, hexDigit? d with
    | some x, some y, some z, some w =>
      Char.ofNat (x * 4096 + y * 256 + z * 16 + w) :: jsUnescape rest
    | _, _, _, _ => '%' :: jsUnescape ('u' :: a :: b :: c :: d :: rest)
  | '%' :: a :: b :: rest =>
    match hexDigit? a, hexDigit? b with
    | some x, some y => Char.ofNat (x * 16 + y) :: jsUnescape rest
    | _, _ => '%' :: jsUnescape (a :: b :: rest)
  | c :: rest => c :: jsUnescape rest

/-- Strict percent-decoding (ECMA `Decode` as used by `decodeURIComponent`):
`%XX` escapes must form valid, shortest-form UTF-8; a URIError becomes
`none`.  Fuel-driven recursion (the fuel starts above the input length and
each step consumes at least one character). -/
def decURIAux : Nat → List Char → Option (List Char)
  | 0, _ => none
  | _ + 1, [] => some []
  | fuel + 1, '%' :: cs =>
    match cs with
    | a :: b :: rest =>
      match hexDigit? a, hexDigit? b with
      | some x, some y =>
        let b0 := x * 16 + y
        if b0 < 0x80 then (decURIAux fuel rest).map (Char.ofNat b0 :: ·)
        else if 0xC2 ≤ b0 ∧ b0 ≤ 0xDF then
          match rest with
          | '%' :: a1 :: b1 :: r1 =>
            match hexDigit? a1, hexDigit? b1 with
            | some x1, some y1 =>
              let v1 := x1 * 16 + y1
              if utf8Cont v1 then
                (decURIAux fuel r1).map (Char.ofNat ((b0 - 0xC0) * 64 + (v1 - 0x80)) :: ·)
              else none
            | _, _ => none
          | _ => none
        else if 0xE0 ≤ b0 ∧ b0 ≤ 0xEF then
          match rest with
          | '%' :: a1 :: b1 :: '%' :: a2 :: b2 :: r2 =>
            match hexDigit? a1, hexDigit? b1, hexDigit? a2, hexDigit? b2 with
            | some x1, some y1, some x2, some y2 =>
              let v1 := x1 * 16 + y1
              let v2 := x2 * 16 + y2
              if ((if b0 = 0xE0 then 0xA0 else 0x80) ≤ v1 ∧
                  v1 ≤ (if b0 = 0xED then 0x9F else 0xBF)) ∧ utf8Cont v2 then
                (decURIAux fuel r2).map
                  (Char.ofNat ((b0 - 0xE0) * 4096 + (v1 - 0x80) * 64 + (v2 - 0x80)) :: ·)
              else none
            | _, _, _, _ => none
          | _ => none
        else if 0xF0 ≤ b0 ∧ b0 ≤ 0xF4 then
          match rest with
          | '%' :: a1 :: b1 :: '%' :: a2 :: b2 :: '%' :: a3 :: b3 :: r3 =>
            match hexDigit? a1, hexDigit? b1, hexDigit? a2, hexDigit? b2,
                hexDigit? a3, hexDigit? b3 with
            | some x1, some y1, some x2, some y2, some x3, some y3 =>
              let v1 := x1 * 16 + y1
              let v2 := x2 * 16 + y2
              let v3 := x3 * 16 + y3
              if ((if b0 = 0xF0 then 0x90 else 0x80) ≤ v1 ∧
                  v1 ≤ (if b0 = 0xF4 then 0x8F else 0xBF)) ∧ utf8Cont v2 ∧ utf8Cont v3 then
                (decURIAux fuel r3).map
                  (Char.ofNat ((b0 - 0xF0) * 262144 + (v1 - 0x80) * 4096 +
                    (v2 - 0x80) * 64 + (v3 - 0x80)) :: ·)
              else none
            | _, _, _, _, _, _ => none
          | _ => none
        else none
      | _, _ => none
    | _ => none
  | fuel + 1, c :: cs => (decURIAux fuel cs).map (c :: ·)

/-- JS `decodeURIComponent`; `none` models a thrown `URIError`. -/
def jsDecodeURIComponent (s : String) : Option String :=
  (decURIAux (s.data.length + 1) s.data).map String.mk

/-! ### Operation registry data model -/

/-- Platform primitives the operations delegate to: the Web Crypto digests
and HMACs (over byte lists, yielding bytes) and the locale-sensitive string
comparison used by line sorting.  They are suspension points local to one
step (spec section 5) and are modelled as pure functions. -/
structure Platform where
  sha1 : List Nat → List (Fin 256)
  sha256 : List Nat → List (Fin 256)
  sha384 : List Nat → List (Fin 256)
  sha512 : List Nat → List (Fin 256)
  hmacSha256 : List Nat → List Nat → List (Fin 256)
  hmacSha512 : List Nat → List Nat → List (Fin 256)
  localeCompare : String → String → Int

/-- One entry of an operation's `params` schema (`kind` is the source's
`type` field; absent JS fields are `none` / `false`). -/
structure ParamSpec where
  name : String
  label : String
  kind : String
  default : Option Value := none
  min : Option Int := none
  max : Option Int := none
  required : Bool := false
  placeholder : Option String := none
  options : Option (List String) := none
deriving DecidableEq, Repr

/-- An operation descriptor: presentation metadata, parameter schema and the
transform. -/
structure Op where
  name : String
  category : String
  icon : String
  description : String
  params : List ParamSpec
  fn : String → Params → Except String String

/-- One byte as two lowercase hex digits
(`b.toString(16).padStart(2, '0')`). -/
def hexPair (b : Nat) : List Char := padStartList (natToHexList b) 2 '0'

/-- Render a byte list as lowercase hex (`hexPair` of each byte, joined). -/
def hexOfBytes (bs : List (Fin 256)) : List Char :=
  bs.flatMap (fun b => hexPair b.val)

/-- Engine text of the TypeError raised by calling `.map` on the `null` that
`"".match(/.../g)` returns (V8 wording; only its presence matters). -/
def nullMapMessage : String := "Cannot read properties of null (reading 'map')"

/-! ### encoding.js -/

/-- The `toBase64` transform: `btoa(unescape(encodeURIComponent(input)))`,
with any failure reported as an invalid-input error. -/
def toBase64Fn (input : String) (_params : Params) : Except String String :=
  match jsBtoa (String.mk (jsUnescape (jsEncodeURIComponent input).data)) with
  | some r => .ok r
  | none => .error "Invalid input for Base64 encoding"

/-- The `fromBase64` transform: strip `\s`, then
`decodeURIComponent(escape(atob(cleaned)))`. -/
def fromBase64Fn (input : String) (_params : Params) : Except String String :=
  let cleaned := String.mk (input.data.filter (fun c => !jsWhitespace c))
  match jsAtob cleaned with
  | none => .error "Invalid Base64 string"
  | some bytesStr =>
    match jsDecodeURIComponent (jsEscape bytesStr) with
    | none => .error "Invalid Base64 string"
    | some r => .ok r

/-- Character `n` of the RFC 4648 Base32 alphabet `A–Z2–7`. -/
def b32Char (n : Nat) : Char :=
  if n < 26 then Char.ofNat (65 + n) else Char.ofNat (50 + (n - 26))

/-- Index of a character in the Base32 alphabet (`indexOf`). -/
def b32Val? (c : Char) : Option Nat :=
  if 'A' ≤ c ∧ c ≤ 'Z' then some (c.toNat - 65)
  else if '2' ≤ c ∧ c ≤ '7' then some (c.toNat - 50 + 26)
  else none

/-- The eight bits of a byte, most significant first (`toString(2)` padded
to eight digits). -/
def bits8 (b : Nat) : List Nat :=
  [b / 128 % 2, b / 64 % 2, b / 32 % 2, b / 16 % 2, b / 8 % 2, b / 4 % 2, b / 2 % 2,
    b % 2]

/-- The five bits of a Base32 symbol value, most significant first. -/
def bits5 (v : Nat) : List Nat :=
  [v / 16 % 2, v / 8 % 2, v / 4 % 2, v / 2 % 2, v % 2]

/-- Split a bit list into chunks of five, fuel-driven (the final chunk may
be short). -/
def chunksOf5Aux : Nat → List Nat → List (List Nat)
  | 0, _ => []
  | _ + 1, [] => []
  | fuel + 1, b :: rest => ((b :: rest).take 5) :: chunksOf5Aux fuel ((b :: rest).drop 5)

/-- Split a bit list into chunks of five (the final chunk may be short). -/
def chunksOf5 (l : List Nat) : List (List Nat) := chunksOf5Aux (l.length + 1) l

/-- Numeric value of a bit chunk (`parseInt(chunk, 2)` on `0`/`1` digits). -/
def bitsVal (bits : List Nat) : Nat := bits.foldl (fun a b => a * 2 + b) 0

/-- Bytes formed from complete groups of eight bits; leftover bits dropped. -/
def fullBytesOfBits : List Nat → List Nat
  | b0 :: b1 :: b2 :: b3 :: b4 :: b5 :: b6 :: b7 :: rest =>
    (b0 * 128 + b1 * 64 + b2 * 32 + b3 * 16 + b4 * 8 + b5 * 4 + b6 * 2 + b7) ::
      fullBytesOfBits rest
  | _ => []

/-- The `toBase32` transform: UTF-8 bits, 5-bit symbols (the last chunk
zero-padded), `=`-padding to a multiple of eight characters. -/
def toBase32Fn (input : String) (_params : Params) : Except String String :=
  let bits := (utf8Encode input).flatMap bits8
  let syms := (chunksOf5 bits).map (fun chunk =>
    b32Char (bitsVal (chunk ++ List.replicate (5 - chunk.length) 0)))
  let padded := syms ++ List.replicate ((8 - syms.length % 8) % 8) '='
  .ok (String.mk padded)

/-- The `fromBase32` transform: strip the trailing `=` run, uppercase, map
through the alphabet (failing on anything else), reassemble complete bytes,
decode as UTF-8. -/
def fromBase32Fn (input : String) (_params : Params) : Except String String :=
  let cleaned := ((input.data.reverse.dropWhile (fun c => c = '=')).reverse).map
    asciiUpperChar
  match cleaned.mapM b32Val? with
  | none => .error "Invalid Base32 character"
  | some vals => .ok (textDecode (fullBytesOfBits (vals.flatMap bits5)))

/-- The `toHex` transform: UTF-8 bytes as two lowercase hex digits each,
joined with the (falsy-defaulted) separator parameter. -/
def toHexFn (input : String) (params : Params) : Except String String :=
  let v := pget params "separator"
  let separator := if jsTruthy v then jsValToString v else ""
  .ok (String.intercalate separator
    ((utf8Encode input).map (fun b => String.mk (hexPair b))))

/-- Characters removed by `fromHex`'s cleanup regex `[\s:,-]` (whitespace,
colon, comma, dash). -/
def hexSeparator (c : Char) : Bool :=
  jsWhitespace c ∨ c = ':' ∨ c = ',' ∨ c = '-'

/-- Chunks of at most two characters (`match(/.{1,2}/g)` on a non-empty
string). -/
def chunks12 : List Char → List (List Char)
  | [] => []
  | [a] => [[a]]
  | a :: b :: rest => [a, b] :: chunks12 rest

/-- The `fromHex` transform: strip separators, require even length, parse
two-character groups with `parseInt(·, 16)` and decode the bytes as UTF-8.
On the empty cleaned string `match` returns `null` and the `.map` call
raises a TypeError, re-thrown as an invalid-hex error. -/
def fromHexFn (input : String) (_params : Params) : Except String String :=
  let cleaned := input.data.filter (fun c => !hexSeparator c)
  if cleaned.length % 2 ≠ 0 then
    .error ("Invalid hex string: " ++ "Hex string length must be even")
  else
    match chunks12 cleaned with
    | [] => .error ("Invalid hex string: " ++ nullMapMessage)
    | chunks =>
      let parsed := chunks.map (fun p => jsParseInt16 (String.mk p))
      if parsed.any (fun o => o.isNone) then
        .error ("Invalid hex string: " ++ "Invalid hex characters")
      else
        .ok (textDecode (parsed.map (fun o => ((o.getD 0).toNat % 256))))

/-- The `urlEncode` transform. -/
def urlEncodeFn (input : String) (_params : Params) : Except String String :=
  .ok (jsEncodeURIComponent input)

/-- The `urlDecode` transform; a URIError becomes an invalid-encoding
error. -/
def urlDecodeFn (input : String) (_params : Params) : Except String String :=
  match jsDecodeURIComponent input with
  | some r => .ok r
  | none => .error "Invalid URL encoding"

/-- The `toBinary` transform: eight binary digits per UTF-8 byte, joined with
the separator parameter (a single space when `undefined`). -/
def toBinaryFn (input : String) (params : Params) : Except String String :=
  let separator := match pget params "separator" with
    | none => " "
    | some v => jsValToString (some v)
  .ok (String.intercalate separator
    ((utf8Encode input).map (fun b => String.mk (padStartList (natToBinList b) 8 '0'))))

/-- The `fromBinary` transform: keep only `0`/`1`, require a multiple of
eight, decode the bytes as UTF-8 (with the same `null.map` TypeError on an
empty cleaned string as `fromHex`). -/
def fromBinaryFn (input : String) (_params : Params) : Except String String :=
  let cleaned := input.data.filter (fun c => c = '0' ∨ c = '1')
  if cleaned.length % 8 ≠ 0 then
    .error ("Invalid binary string: " ++ "Binary string length must be multiple of 8")
  else
    match cleaned with
    | [] => .error ("Invalid binary string: " ++ nullMapMessage)
    | cs => .ok (textDecode (fullBytesOfBits (cs.map (fun c => c.toNat - 48))))

/-! ### text.js -/

/-- The `toUpper` transform. -/
def toUpperFn (input : String) (_params : Params) : Except String String :=
  .ok (jsToUpper input)

/-- The `toLower` transform. -/
def toLowerFn (input : String) (_params : Params) : Except String String :=
  .ok (jsToLower input)

/-- ASCII `\w` (word character). -/
def isWordChar (c : Char) : Bool :=
  ('a' ≤ c ∧ c ≤ 'z') ∨ ('A' ≤ c ∧ c ≤ 'Z') ∨ ('0' ≤ c ∧ c ≤ '9') ∨ c = '_'

/-- Per-character effect of `replace(/(?:^|\s)\w/g, m => m.toUpperCase())`:
uppercase every word character at the start or right after whitespace. -/
def titleCaseLoop : Option Char → List Char → List Char
  | _, [] => []
  | prev, c :: rest =>
    (if isWordChar c ∧ (prev = none ∨ (prev.map jsWhitespace).getD false = true) then
      asciiUpperChar c
    else c) :: titleCaseLoop (some c) rest

/-- The `toTitleCase` transform: lowercase, then capitalise after `^` or
`\s`. -/
def toTitleCaseFn (input : String) (_params : Params) : Except String String :=
  .ok (String.mk (titleCaseLoop none (jsToLower input).data))

/-- The `swapCase` transform: characters equal to their own uppercase map to
lowercase, all others to uppercase. -/
def swapCaseFn (input : String) (_params : Params) : Except String String :=
  .ok (String.mk (input.data.map (fun c =>
    if c = asciiUpperChar c then asciiLowerChar c else asciiUpperChar c)))

/-- The `reverse` transform. -/
def reverseFn (input : String) (_params : Params) : Except String String :=
  .ok (String.mk input.data.reverse)

/-- The `trim` transform. -/
def trimFn (input : String) (_params : Params) : Except String String :=
  .ok (jsTrim input)

/-- The `removeSpaces` transform (`replace(/\s+/g, '')`). -/
def removeSpacesFn (input : String) (_params : Params) : Except String String :=
  .ok (String.mk (input.data.filter (fun c => !jsWhitespace c)))

/-- Replace every maximal run of characters satisfying `p` with one `r` (the
`inRun` flag marks being inside a run already emitted). -/
def collapseRunsAux (p : Char → Bool) (r : Char) : Bool → List Char → List Char
  | _, [] => []
  | inRun, c :: rest =>
    if p c then (if inRun then [] else [r]) ++ collapseRunsAux p r true rest
    else c :: collapseRunsAux p r false rest

/-- Replace every maximal run of characters satisfying `p` with `r`. -/
def collapseRuns (p : Char → Bool) (r : Char) (l : List Char) : List Char :=
  collapseRunsAux p r false l

/-- The `normalizeWhitespace` transform (`replace(/\s+/g, ' ').trim()`). -/
def normalizeWhitespaceFn (input : String) (_params : Params) : Except String String :=
  .ok (jsTrim (String.mk (collapseRuns jsWhitespace ' ' input.data)))

/-- The `removeLineBreaks` transform (`replace(/[\r\n]+/g, ' ')`). -/
def removeLineBreaksFn (input : String) (_params : Params) : Except String String :=
  .ok (String.mk (collapseRuns (fun c => c = '\r' ∨ c = '\n') ' ' input.data))

/-- JS `s.split('\n')` (as character lists). -/
def splitNewline (s : String) : List (List Char) := s.data.splitOn '\n'

/-- The `addLineNumbers` transform: `start`/`padding` via `parseInt` with
`|| 1` and `|| 0` fallbacks, zero-padded numbers, `". "` separator. -/
def addLineNumbersFn (input : String) (params : Params) : Except String String :=
  let start : Int := match jsParseIntV (pget params "start") with
    | none => 1
    | some n => if n = 0 then 1 else n
  let padding : Int := match jsParseIntV (pget params "padding") with
    | none => 0
    | some n => n
  let lines := splitNewline input
  .ok (String.intercalate "\n" (lines.enum.map (fun p =>
    String.mk (padStartList (toString (start + (p.1 : Int))).data padding.toNat '0') ++
      ". " ++ String.mk p.2)))

/-- The `sortLines` transform: stable sort by `localeCompare`, negated for
descending order. -/
def sortLinesFn (pf : Platform) (input : String) (params : Params) :
    Except String String :=
  let desc := pget params "order" = some (Value.str "desc")
  let cmp : String → String → Int := fun a b =>
    if desc then -(pf.localeCompare a b) else pf.localeCompare a b
  let lines := (splitNewline input).map String.mk
  .ok (String.intercalate "\n" (lines.mergeSort (fun a b => cmp a b ≤ 0)))

/-- The `removeDuplicateLines` transform (`Set` keeps first occurrences). -/
def removeDuplicateLinesFn (input : String) (_params : Params) :
    Except String String :=
  .ok (String.intercalate "\n" (((splitNewline input).map String.mk).eraseDups))

/-- Case-insensitive (ASCII) comparison used by the `gi` regex flag. -/
def ciEq (ci : Bool) (a b : Char) : Bool :=
  if ci then asciiLowerChar a = asciiLowerChar b else a = b

/-- Does `pat` match at the head of `s` (under optional case folding). -/
def matchesHere (ci : Bool) (pat s : List Char) : Bool :=
  match pat, s with
  | [], _ => true
  | _ :: _, [] => false
  | p :: ps, c :: cs => ciEq ci p c && matchesHere ci ps cs

/-- Expand the special `$` patterns of a replacement string: `$$`, `$&`
(matched text), the backquote form (text before the match) and the quote
form (text after the match); everything else is literal. -/
def expandRepl (repl : List Char) (matched : List Char) (before after : List Char) :
    List Char :=
  match repl with
  | [] => []
  | '$' :: '$' :: rest => '$' :: expandRepl rest matched before after
  | '$' :: '&' :: rest => matched ++ expandRepl rest matched before after
  | '$' :: '\x60' :: rest => before ++ expandRepl rest matched before after
  | '$' :: '\x27' :: rest => after ++ expandRepl rest matched before after
  | c :: rest => c :: expandRepl rest matched before after

/-- Global literal-pattern replacement (the escaped-regex `g`/`gi` replace):
fuel-driven scan; `fuel` starts above the input length and each step consumes
at least one character whenever `pat` is non-empty. -/
def replaceAllAux (ci : Bool) (pat repl orig : List Char) :
    Nat → Nat → List Char → List Char
  | 0, _, _ => []
  | _ + 1, _, [] => []
  | fuel + 1, i, c :: rem =>
    if matchesHere ci pat (c :: rem) then
      let matched := (c :: rem).take pat.length
      expandRepl repl matched (orig.take i) (orig.drop (i + pat.length)) ++
        replaceAllAux ci pat repl orig fuel (i + pat.length) ((c :: rem).drop pat.length)
    else c :: replaceAllAux ci pat repl orig fuel (i + 1) rem

/-- The `findReplace` transform.  A falsy `find` fails; a truthy non-string
`find` has no `.replace` method and raises a TypeError; otherwise the
escaped literal is replaced globally, case-insensitively unless
`caseSensitive` is truthy. -/
def findReplaceFn (input : String) (params : Params) : Except String String :=
  if !jsTruthy (pget params "find") then .error "Find parameter is required"
  else
    match pget params "find" with
    | some (Value.str find) =>
      let ci := !jsTruthy (pget params "caseSensitive")
      let rv := pget params "replace"
      let repl := if jsTruthy rv then jsValToString rv else ""
      .ok (String.mk (replaceAllAux ci find.data repl.data input.data
        (input.data.length + 1) 0 input.data))
    | _ => .error "params.find.replace is not a function"

/-- Number of maximal non-whitespace runs (the count of non-empty pieces of
`split(/\s+/)`). -/
def nonWSRuns : Option Char → List Char → Nat
  | _, [] => 0
  | prev, c :: rest =>
    (if !jsWhitespace c ∧ (prev = none ∨ (prev.map jsWhitespace).getD false = true) then
      1
    else 0) + nonWSRuns (some c) rest

/-- The `countCharacters` transform: a two-space-indented JSON report of
total/letters/digits/spaces/words/lines. -/
def countCharactersFn (input : String) (_params : Params) : Except String String :=
  let text := input.data
  let total := text.length
  let letters := (text.filter (fun c => ('a' ≤ c ∧ c ≤ 'z') ∨ ('A' ≤ c ∧ c ≤ 'Z'))).length
  let digits := (text.filter (fun c => '0' ≤ c ∧ c ≤ '9')).length
  let spaces := (text.filter jsWhitespace).length
  let words := nonWSRuns none (jsTrim input).data
  let lines := (splitNewline input).length
  .ok ("\x7b\n  \"total\": " ++ toString total ++ ",\n  \"letters\": " ++
    toString letters ++ ",\n  \"digits\": " ++ toString digits ++
    ",\n  \"spaces\": " ++ toString spaces ++ ",\n  \"words\": " ++ toString words ++
    ",\n  \"lines\": " ++ toString lines ++ "\n\x7d")

/-- Local-part characters of the email regex `[a-zA-Z0-9._%+-]`. -/
def emailLocalChar (c : Char) : Bool :=
  ('a' ≤ c ∧ c ≤ 'z') ∨ ('A' ≤ c ∧ c ≤ 'Z') ∨ ('0' ≤ c ∧ c ≤ '9') ∨
  c = '.' ∨ c = '_' ∨ c = '%' ∨ c = '+' ∨ c = '-'

/-- Domain characters of the email regex `[a-zA-Z0-9.-]`. -/
def emailDomainChar (c : Char) : Bool :=
  ('a' ≤ c ∧ c ≤ 'z') ∨ ('A' ≤ c ∧ c ≤ 'Z') ∨ ('0' ≤ c ∧ c ≤ '9') ∨ c = '.' ∨ c = '-'

/-- ASCII letter. -/
def isAsciiLetter (c : Char) : Bool := ('a' ≤ c ∧ c ≤ 'z') ∨ ('A' ≤ c ∧ c ≤ 'Z')

/-- Greedy backtracking step of `[a-zA-Z0-9.-]+\.[a-zA-Z]{2,}` on a maximal
domain run `d`: the largest split point carrying a dot followed by at least
two letters wins.  Returns the matched piece of `d` and what follows it. -/
def emailDomainSplit (d : List Char) : Nat → Option (List Char × List Char)
  | 0 => none
  | k + 1 =>
    if (d.get? (k + 1)) = some '.' ∧
        2 ≤ ((d.drop (k + 2)).takeWhile isAsciiLetter).length then
      let tld := (d.drop (k + 2)).takeWhile isAsciiLetter
      some (d.take (k + 2) ++ tld, d.drop (k + 2 + tld.length))
    else emailDomainSplit d k

/-- Attempt the email regex at the head of `s`: greedy local part, literal
`@`, then the domain backtracking step. -/
def tryEmailAt (s : List Char) : Option (List Char × List Char) :=
  let loc := s.takeWhile emailLocalChar
  if loc.isEmpty then none
  else
    match s.drop loc.length with
    | '@' :: afterAt =>
      let d := afterAt.takeWhile emailDomainChar
      match emailDomainSplit d (d.length - 2) with
      | some (dm, _) =>
        some (loc ++ '@' :: dm, afterAt.drop dm.length)
      | none => none
    | _ => none

/-- Global scan of the email regex: try each start position left to right,
non-overlapping (fuel-driven; each step consumes at least one character). -/
def emailScanAux : Nat → List Char → List (List Char)
  | 0, _ => []
  | _ + 1, [] => []
  | fuel + 1, c :: rest =>
    match tryEmailAt (c :: rest) with
    | some (m, after) => m :: emailScanAux fuel after
    | none => emailScanAux fuel rest

/-- The `extractEmails` transform: all regex matches, first-seen
deduplicated, newline-joined. -/
def extractEmailsFn (input : String) (_params : Params) : Except String String :=
  let ms := (emailScanAux (input.data.length + 1) input.data).map String.mk
  .ok (String.intercalate "\n" ms.eraseDups)

/-- Attempt `https?:\/\/[^\s]+` at the head of `s`. -/
def tryUrlAt (s : List Char) : Option (List Char × List Char) :=
  match s with
  | 'h' :: 't' :: 't' :: 'p' :: rest =>
    let pick : List Char → Option (List Char × List Char) := fun tail =>
      match tail with
      | ':' :: '/' :: '/' :: body =>
        let t := body.takeWhile (fun c => !jsWhitespace c)
        if t.isEmpty then none else some (t, body.drop t.length)
      | _ => none
    match rest with
    | 's' :: rest2 =>
      match pick rest2 with
      | some (t, after) => some ('h' :: 't' :: 't' :: 'p' :: 's' :: ':' :: '/' :: '/' :: t, after)
      | none =>
        match pick rest with
        | some (t, after) => some ('h' :: 't' :: 't' :: 'p' :: ':' :: '/' :: '/' :: t, after)
        | none => none
    | _ =>
      match pick rest with
      | some (t, after) => some ('h' :: 't' :: 't' :: 'p' :: ':' :: '/' :: '/' :: t, after)
      | none => none
  | _ => none

/-- Global scan of the URL regex (fuel-driven). -/
def urlScanAux : Nat → List Char → List (List Char)
  | 0, _ => []
  | _ + 1, [] => []
  | fuel + 1, c :: rest =>
    match tryUrlAt (c :: rest) with
    | some (m, after) => m :: urlScanAux fuel after
    | none => urlScanAux fuel rest

/-- The `extractUrls` transform. -/
def extractUrlsFn (input : String) (_params : Params) : Except String String :=
  let ms := (urlScanAux (input.data.length + 1) input.data).map String.mk
  .ok (String.intercalate "\n" ms.eraseDups)

/-! ### hash.js -/

/-- The `sha256` transform: platform digest of the UTF-8 bytes, lowercase
hex.  (The defensive `try`/`catch` re-wraps a platform failure; the platform
digest is modelled as total.) -/
def sha256Fn (pf : Platform) (input : String) (_params : Params) :
    Except String String :=
  .ok (String.mk (hexOfBytes (pf.sha256 (utf8Encode input))))

/-- The `sha384` transform. -/
def sha384Fn (pf : Platform) (input : String) (_params : Params) :
    Except String String :=
  .ok (String.mk (hexOfBytes (pf.sha384 (utf8Encode input))))

/-- The `sha512` transform. -/
def sha512Fn (pf : Platform) (input : String) (_params : Params) :
    Except String String :=
  .ok (String.mk (hexOfBytes (pf.sha512 (utf8Encode input))))

/-- The `sha1` transform. -/
def sha1Fn (pf : Platform) (input : String) (_params : Params) :
    Except String String :=
  .ok (String.mk (hexOfBytes (pf.sha1 (utf8Encode input))))

/-- The `md5` transform: a placeholder that renders the first sixteen bytes
of the SHA-1 digest (`hashArray.slice(0, 16)`), not real MD5. -/
def md5Fn (pf : Platform) (input : String) (_params : Params) :
    Except String String :=
  .ok (String.mk (hexOfBytes ((pf.sha1 (utf8Encode input)).take 16)))

/-- The `simpleHash32` transform: `hash = ((hash << 5) - hash) + code`
wrapped to a signed 32-bit integer each step, rendered as
`Math.abs(hash).toString(16).padStart(8, '0')`. -/
def simpleHash32Fn (input : String) (_params : Params) : Except String String :=
  let h := input.data.foldl
    (fun h c => toInt32 (toInt32 (h * 32) - h + (c.toNat : Int))) 0
  .ok (String.mk (padStartList (natToHexList h.natAbs) 8 '0'))

/-- The `djb2Hash` transform: `hash = ((hash << 5) + hash) + code` (only the
shift wraps; the sum stays exact), rendered via `(hash >>> 0)`. -/
def djb2HashFn (input : String) (_params : Params) : Except String String :=
  let h := input.data.foldl
    (fun h c => toInt32 (h * 32) + h + (c.toNat : Int)) 5381
  .ok (String.mk (padStartList (natToHexList (toUint32 h).toNat) 8 '0'))

/-- One iteration of the CRC-32 table recurrence:
`c = (c & 1) ? (0xEDB88320 ^ (c >>> 1)) : (c >>> 1)`. -/
def crcTableStep (c : Nat) : Nat :=
  if c % 2 = 1 then xor32 0xEDB88320 (c / 2) else c / 2

/-- The precomputed 256-entry CRC-32 table. -/
def crcTable : List Nat :=
  (List.range 256).map (fun n => Nat.repeat crcTableStep 8 n)

/-- The `crc32` transform: reflected polynomial `0xEDB88320`, table-driven,
initial/final inversion, eight lowercase hex digits. -/
def crc32Fn (input : String) (_params : Params) : Except String String :=
  let crc := input.data.foldl
    (fun crc c => xor32 (crc / 256) (crcTable.getD (xor32 crc c.toNat % 256) 0))
    0xFFFFFFFF
  .ok (String.mk (padStartList (natToHexList (xor32 crc 0xFFFFFFFF)) 8 '0'))

/-- The `hmacSha256` transform: requires a truthy secret key, then the
platform HMAC over the UTF-8 encodings. -/
def hmacSha256Fn (pf : Platform) (input : String) (params : Params) :
    Except String String :=
  let kv := pget params "key"
  if !jsTruthy kv then .error "Secret key is required"
  else
    .ok (String.mk (hexOfBytes
      (pf.hmacSha256 (utf8Encode (jsValToString kv)) (utf8Encode input))))

/-- The `hmacSha512` transform. -/
def hmacSha512Fn (pf : Platform) (input : String) (params : Params) :
    Except String String :=
  let kv := pget params "key"
  if !jsTruthy kv then .error "Secret key is required"
  else
    .ok (String.mk (hexOfBytes
      (pf.hmacSha512 (utf8Encode (jsValToString kv)) (utf8Encode input))))

/-! ### cipher.js -/

/-- Per-letter shift of the ROT/Caesar family: the base is 65 for characters
not above `'Z'` and 97 otherwise, and the letter is rotated by `shift`
positions (the code's `(code - base + shift) % 26` with `shift` already
non-negative). -/
def shiftLetter (shift : Int) (c : Char) : Char :=
  if isAsciiLetter c then
    let base : Int := if c.toNat ≤ 90 then 65 else 97
    Char.ofNat (((base + ((c.toNat : Int) - base + shift) % 26)).toNat)
  else c

/-- The `rot13` transform. -/
def rot13Fn (input : String) (_params : Params) : Except String String :=
  .ok (String.mk (input.data.map (shiftLetter 13)))

/-- Shift amount of the Caesar pair: `parseInt(params.shift) || 3`. -/
def caesarShiftParam (params : Params) : Int :=
  match jsParseIntV (pget params "shift") with
  | none => 3
  | some n => if n = 0 then 3 else n

/-- The `caesar` transform: the parsed-or-default shift must lie in
`[1, 25]`, then only ASCII letters are rotated. -/
def caesarFn (input : String) (params : Params) : Except String String :=
  let shift := caesarShiftParam params
  if shift < 1 ∨ 25 < shift then .error "Shift must be between 1 and 25"
  else .ok (String.mk (input.data.map (shiftLetter shift)))

/-- The `caesarDecrypt` transform: rotation by `- shift + 26` instead. -/
def caesarDecryptFn (input : String) (params : Params) : Except String String :=
  let shift := caesarShiftParam params
  if shift < 1 ∨ 25 < shift then .error "Shift must be between 1 and 25"
  else .ok (String.mk (input.data.map (shiftLetter (26 - shift))))

/-- The `atbash` transform: lowercase letters map through `219 - code`,
uppercase through `155 - code`. -/
def atbashFn (input : String) (_params : Params) : Except String String :=
  .ok (String.mk (input.data.map (fun c =>
    if 'a' ≤ c ∧ c ≤ 'z' then Char.ofNat (219 - c.toNat)
    else if 'A' ≤ c ∧ c ≤ 'Z' then Char.ofNat (155 - c.toNat)
    else c)))

/-- Vigenère core: only letters consume a key position; the shift is the
key letter's value (A = 0); `dec` selects the decrypt offset
`- shift + 26`. -/
def vigenereLoop (key : List Char) (dec : Bool) : Nat → List Char → List Char
  | _, [] => []
  | keyIndex, c :: rest =>
    if isAsciiLetter c then
      let base : Int := if c.toNat ≤ 90 then 65 else 97
      let shift : Int := (key.getD (keyIndex % key.length) 'A').toNat - 65
      let off : Int := if dec then -shift + 26 else shift
      Char.ofNat ((base + ((c.toNat : Int) - base + off) % 26).toNat) ::
        vigenereLoop key dec (keyIndex + 1) rest
    else c :: vigenereLoop key dec keyIndex rest

/-- Shared body of the Vigenère pair. -/
def vigenereBody (dec : Bool) (input : String) (params : Params) :
    Except String String :=
  let kv := pget params "key"
  if !jsTruthy kv then .error "Key is required"
  else
    let key := ((jsToUpper (jsValToString kv)).data.filter
      (fun c => 'A' ≤ c ∧ c ≤ 'Z'))
    if key.length = 0 then .error "Key must contain at least one letter"
    else .ok (String.mk (vigenereLoop key dec 0 input.data))

/-- The `vigenere` transform. -/
def vigenereFn (input : String) (params : Params) : Except String String :=
  vigenereBody false input params

/-- The `vigenereDecrypt` transform. -/
def vigenereDecryptFn (input : String) (params : Params) : Except String String :=
  vigenereBody true input params

/-- The zig-zag rail walk shared by Rail Fence encryption and decryption:
record the current rail, move by `direction`, and reverse direction on
reaching rail 0 or rail `rails - 1`. -/
def railWalk (rails : Int) : Nat → Int → Int → List Int
  | 0, _, _ => []
  | n + 1, rail, direction =>
    rail :: railWalk rails n (rail + direction)
      (if rail + direction = 0 ∨ rail + direction = rails - 1 then -direction
        else direction)

/-- The rail-index pattern for `n` characters. -/
def railPattern (rails : Int) (n : Nat) : List Int := railWalk rails n 0 1

/-- Characters of `xs` whose pattern entry is `r`, in order (the contents of
`fence[r]` after the pushing walk). -/
def railSelect (xs : List Char) (tags : List Int) (r : Int) : List Char :=
  (xs.zip tags).filterMap (fun p => if p.2 = r then some p.1 else none)

/-- Rails parameter of the Rail Fence pair: `parseInt(params.rails) || 3`. -/
def railsParam (params : Params) : Int :=
  match jsParseIntV (pget params "rails") with
  | none => 3
  | some n => if n = 0 then 3 else n

/-- Rail Fence encryption core: push each character onto its pattern rail,
then flatten the fence top to bottom. -/
def railFenceEncCore (xs : List Char) (k : Nat) : List Char :=
  ((List.range k).map
    (fun (r : Nat) => railSelect xs (railPattern (k : Int) xs.length) ((r : Int)))).flatten

/-- The `railFence` transform: validate `rails ∈ [2, 10]`, return short
inputs unchanged, otherwise concatenate the rail buckets top to bottom. -/
def railFenceFn (input : String) (params : Params) : Except String String :=
  let rails := railsParam params
  if rails < 2 ∨ 10 < rails then .error "Number of rails must be between 2 and 10"
  else if (input.data.length : Int) < rails then .ok input
  else .ok (String.mk (railFenceEncCore input.data rails.toNat))

/-- Split a list into consecutive pieces of the given lengths (the decrypt
fill loop: rail `r` receives the next `counts[r]` ciphertext characters). -/
def splitByCounts : List Char → List Nat → List (List Char)
  | _, [] => []
  | xs, c :: cs => xs.take c :: splitByCounts (xs.drop c) cs

/-- Read the fence back along the pattern, consuming one character of the
indexed bucket per step.  (An exhausted bucket would make JS append the
string `"undefined"`; the branch is unreachable on well-formed fences.) -/
def readFence : List Int → List (List Char) → List Char
  | [], _ => []
  | t :: ts, fence =>
    match fence.getD t.toNat [] with
    | c :: rest => c :: readFence ts (fence.set t.toNat rest)
    | [] => ("undefined".data) ++ readFence ts fence

/-- Rail Fence decryption core: rebuild the pattern, slice the ciphertext
into per-rail runs by pattern counts, then re-walk the pattern reading one
character per step. -/
def railFenceDecCore (xs : List Char) (k : Nat) : List Char :=
  readFence (railPattern (k : Int) xs.length)
    (splitByCounts xs ((List.range k).map
      (fun (r : Nat) => (railPattern (k : Int) xs.length).count ((r : Int)))))

/-- The `railFenceDecrypt` transform: validate, return short inputs
unchanged, otherwise run the two-pass decryption. -/
def railFenceDecryptFn (input : String) (params : Params) : Except String String :=
  let rails := railsParam params
  if rails < 2 ∨ 10 < rails then .error "Number of rails must be between 2 and 10"
  else if (input.data.length : Int) < rails then .ok input
  else .ok (String.mk (railFenceDecCore input.data rails.toNat))

/-- The `xorCipher` transform: byte-wise XOR against the cycled key (on
UTF-16 code units; `String.fromCharCode` of a surrogate value is outside the
model and never produced by round-tripping BMP text). -/
def xorCipherFn (input : String) (params : Params) : Except String String :=
  let kv := pget params "key"
  if !jsTruthy kv then .error "Key is required"
  else
    let key := (jsValToString kv).data
    .ok (String.mk (input.data.enum.map (fun p =>
      Char.ofNat (xorBits 16 p.2.toNat (key.getD (p.1 % key.length) 'A').toNat))))

/-- The `substitution` transform: the alphabet parameter is uppercased and
must have exactly 26 characters, all distinct (`new Set(alphabet).size`);
letters map positionally, with case preserved; nothing requires the
alphabet's characters to be letters. -/
def substitutionFn (input : String) (params : Params) : Except String String :=
  let av := pget params "alphabet"
  if !jsTruthy av then .error "Substitution alphabet is required"
  else
    let alphabet := (jsToUpper (jsValToString av)).data
    if alphabet.length ≠ 26 ∨ alphabet.eraseDups.length ≠ 26 then
      .error "Alphabet must contain exactly 26 unique letters"
    else
      .ok (String.mk (input.data.map (fun c =>
        if 'a' ≤ c ∧ c ≤ 'z' then
          asciiLowerChar (alphabet.getD ((asciiUpperChar c).toNat - 65) (Char.ofNat 0))
        else if 'A' ≤ c ∧ c ≤ 'Z' then alphabet.getD (c.toNat - 65) (Char.ofNat 0)
        else c)))

/-! ### index.js — the combined registry -/

/-- EncodingOperations (in source order). -/
def encodingOperations : List (String × Op) :=
  [("toBase64", ⟨"To Base64", "encoding", "📋", "Encode text to Base64 format", [],
      toBase64Fn⟩),
    ("fromBase64", ⟨"From Base64", "encoding", "📋", "Decode Base64 to text", [],
      fromBase64Fn⟩),
    ("toBase32", ⟨"To Base32", "encoding", "🔢", "Encode text to Base32 format", [],
      toBase32Fn⟩),
    ("fromBase32", ⟨"From Base32", "encoding", "🔢", "Decode Base32 to text", [],
      fromBase32Fn⟩),
    ("toHex", ⟨"To Hex", "encoding", "🔢", "Convert text to hexadecimal",
      [{ name := "separator", label := "Separator", kind := "text",
          default := some (Value.str ""),
          placeholder := some "e.g., \" \" or \":\"" }], toHexFn⟩),
    ("fromHex", ⟨"From Hex", "encoding", "🔢", "Convert hexadecimal to text", [],
      fromHexFn⟩),
    ("urlEncode", ⟨"URL Encode", "encoding", "🌐", "Encode text for URLs", [],
      urlEncodeFn⟩),
    ("urlDecode", ⟨"URL Decode", "encoding", "🌐", "Decode URL-encoded text", [],
      urlDecodeFn⟩),
    ("toBinary", ⟨"To Binary", "encoding", "💻", "Convert text to binary",
      [{ name := "separator", label := "Separator", kind := "text",
          default := some (Value.str " "),
          placeholder := some "e.g., \" \" or \"\"" }], toBinaryFn⟩),
    ("fromBinary", ⟨"From Binary", "encoding", "💻", "Convert binary to text", [],
      fromBinaryFn⟩)]

/-- TextOperations (in source order). -/
def textOperations (pf : Platform) : List (String × Op) :=
  [("toUpper", ⟨"To Uppercase", "text", "🔠", "Convert to uppercase", [], toUpperFn⟩),
    ("toLower", ⟨"To Lowercase", "text", "🔡", "Convert to lowercase", [], toLowerFn⟩),
    ("toTitleCase", ⟨"To Title Case", "text", "🔤", "Convert to title case", [],
      toTitleCaseFn⟩),
    ("swapCase", ⟨"Swap Case", "text", "🔄", "Swap uppercase and lowercase", [],
      swapCaseFn⟩),
    ("reverse", ⟨"Reverse", "text", "↩️", "Reverse text order", [], reverseFn⟩),
    ("trim", ⟨"Trim Whitespace", "text", "✂️",
      "Remove leading and trailing whitespace", [], trimFn⟩),
    ("removeSpaces", ⟨"Remove Spaces", "text", "✂️", "Remove all spaces", [],
      removeSpacesFn⟩),
    ("normalizeWhitespace", ⟨"Normalize Whitespace", "text", "📏",
      "Replace multiple spaces with single space", [], normalizeWhitespaceFn⟩),
    ("removeLineBreaks", ⟨"Remove Line Breaks", "text", "📄",
      "Remove all line breaks", [], removeLineBreaksFn⟩),
    ("addLineNumbers", ⟨"Add Line Numbers", "text", "🔢", "Add line numbers to text",
      [{ name := "start", label := "Start From", kind := "number",
          default := some (Value.str "1") },
        { name := "padding", label := "Padding", kind := "number",
          default := some (Value.str "0") }], addLineNumbersFn⟩),
    ("sortLines", ⟨"Sort Lines", "text", "🔤", "Sort lines alphabetically",
      [{ name := "order", label := "Order", kind := "select",
          options := some ["asc", "desc"], default := some (Value.str "asc") }],
      sortLinesFn pf⟩),
    ("removeDuplicateLines", ⟨"Remove Duplicate Lines", "text", "🗑️",
      "Remove duplicate lines", [], removeDuplicateLinesFn⟩),
    ("findReplace", ⟨"Find & Replace", "text", "🔍", "Find and replace text",
      [{ name := "find", label := "Find", kind := "text", required := true },
        { name := "replace", label := "Replace With", kind := "text",
          default := some (Value.str "") },
        { name := "caseSensitive", label := "Case Sensitive", kind := "checkbox",
          default := some (Value.bool false) }], findReplaceFn⟩),
    ("countCharacters", ⟨"Count Characters", "text", "📊",
      "Count characters (returns JSON)", [], countCharactersFn⟩),
    ("extractEmails", ⟨"Extract Emails", "text", "📧", "Extract email addresses", [],
      extractEmailsFn⟩),
    ("extractUrls", ⟨"Extract URLs", "text", "🔗", "Extract URLs from text", [],
      extractUrlsFn⟩)]

/-- HashOperations (in source order). -/
def hashOperations (pf : Platform) : List (String × Op) :=
  [("sha256", ⟨"SHA-256", "hash", "🔐", "SHA-256 cryptographic hash", [],
      sha256Fn pf⟩),
    ("sha384", ⟨"SHA-384", "hash", "🔐", "SHA-384 cryptographic hash", [],
      sha384Fn pf⟩),
    ("sha512", ⟨"SHA-512", "hash", "🔐", "SHA-512 cryptographic hash", [],
      sha512Fn pf⟩),
    ("sha1", ⟨"SHA-1", "hash", "⚠️", "SHA-1 cryptographic hash (deprecated)", [],
      sha1Fn pf⟩),
    ("md5", ⟨"MD5", "hash", "⚠️", "MD5 hash (not cryptographically secure)", [],
      md5Fn pf⟩),
    ("simpleHash32", ⟨"Simple Hash (32-bit)", "hash", "#️⃣",
      "Simple 32-bit hash function", [], simpleHash32Fn⟩),
    ("djb2Hash", ⟨"DJB2 Hash", "hash", "#️⃣", "DJB2 string hash algorithm", [],
      djb2HashFn⟩),
    ("crc32", ⟨"CRC32 Checksum", "hash", "✓", "CRC32 checksum algorithm", [],
      crc32Fn⟩),
    ("hmacSha256", ⟨"HMAC-SHA256", "hash", "🔑", "HMAC with SHA-256",
      [{ name := "key", label := "Secret Key", kind := "text", required := true,
          placeholder := some "Enter secret key" }], hmacSha256Fn pf⟩),
    ("hmacSha512", ⟨"HMAC-SHA512", "hash", "🔑", "HMAC with SHA-512",
      [{ name := "key", label := "Secret Key", kind := "text", required := true,
          placeholder := some "Enter secret key" }], hmacSha512Fn pf⟩)]

/-- CipherOperations (in source order). -/
def cipherOperations : List (String × Op) :=
  [("rot13", ⟨"ROT13", "cipher", "🔄", "ROT13 cipher transformation", [], rot13Fn⟩),
    ("caesar", ⟨"Caesar Cipher", "cipher", "🏛️", "Caesar shift cipher",
      [{ name := "shift", label := "Shift Amount", kind := "number",
          default := some (Value.str "3"), min := some 1, max := some 25,
          required := true }], caesarFn⟩),
    ("caesarDecrypt", ⟨"Caesar Decrypt", "cipher", "🏛️",
      "Caesar shift cipher decryption",
      [{ name := "shift", label := "Shift Amount", kind := "number",
          default := some (Value.str "3"), min := some 1, max := some 25,
          required := true }], caesarDecryptFn⟩),
    ("atbash", ⟨"Atbash Cipher", "cipher", "🔀", "Atbash substitution cipher", [],
      atbashFn⟩),
    ("vigenere", ⟨"Vigenère Cipher", "cipher", "🗝️", "Vigenère polyalphabetic cipher",
      [{ name := "key", label := "Key", kind := "text", required := true,
          placeholder := some "Enter cipher key" }], vigenereFn⟩),
    ("vigenereDecrypt", ⟨"Vigenère Decrypt", "cipher", "🗝️",
      "Vigenère cipher decryption",
      [{ name := "key", label := "Key", kind := "text", required := true,
          placeholder := some "Enter cipher key" }], vigenereDecryptFn⟩),
    ("railFence", ⟨"Rail Fence Cipher", "cipher", "🚂",
      "Rail fence transposition cipher",
      [{ name := "rails", label := "Number of Rails", kind := "number",
          default := some (Value.str "3"), min := some 2, max := some 10,
          required := true }], railFenceFn⟩),
    ("railFenceDecrypt", ⟨"Rail Fence Decrypt", "cipher", "🚂",
      "Rail fence cipher decryption",
      [{ name := "rails", label := "Number of Rails", kind := "number",
          default := some (Value.str "3"), min := some 2, max := some 10,
          required := true }], railFenceDecryptFn⟩),
    ("xorCipher", ⟨"XOR Cipher", "cipher", "⚡", "XOR encryption/decryption",
      [{ name := "key", label := "Key", kind := "text", required := true,
          placeholder := some "Enter key" }], xorCipherFn⟩),
    ("substitution", ⟨"Substitution Cipher", "cipher", "🔤",
      "Custom alphabet substitution",
      [{ name := "alphabet", label := "Substitution Alphabet", kind := "text",
          required := true, placeholder := some "26 unique letters" }],
      substitutionFn⟩)]

/-- The merged registry, spread in module order (all keys are distinct, so
the spread order never overrides an entry). -/
def operations (pf : Platform) : List (String × Op) :=
  encodingOperations ++ textOperations pf ++ hashOperations pf ++ cipherOperations

/-- Registry lookup (`operations[key]`). -/
def getOp (pf : Platform) (key : String) : Option Op :=
  ((operations pf).find? (fun kv => kv.1 = key)).map (fun kv => kv.2)

/-- `CryptoOperations.execute`: resolve the operation (failing distinctly for
an unknown id), reject the first required parameter whose supplied value is
falsy, then invoke the transform. -/
def execute (pf : Platform) (key : String) (input : String) (params : Params) :
    Except String String :=
  match getOp pf key with
  | none => .error ("Unknown operation: " ++ key)
  | some op =>
    match op.params.find? (fun p => p.required && !jsTruthy (pget params p.name)) with
    | some p => .error ("Parameter \"" ++ p.label ++ "\" is required")
    | none => op.fn input params

/-! ### app.js — recipe execution and auto-detection

The DOM/log/timing plumbing around `executeRecipe` is excluded I/O glue
(spec section 1); what is modelled is the advancing value and the
error-short-circuit discipline of the step loop (the `try`/`catch` wrapping
each step in `Step ${i + 1}: message`). -/

/-- One recipe step `{ op, params }`. -/
structure StepRec where
  op : String
  params : Params

/-- The run-to-completion step loop, carrying the 0-based step index: on the
first failing step the error is rethrown as `Step <i+1>: <message>` and no
further step is executed. -/
def runSteps (pf : Platform) : Nat → List StepRec → String → Except String String
  | _, [], acc => .ok acc
  | i, s :: rest, acc =>
    match execute pf s.op acc s.params with
    | .ok r => runSteps pf (i + 1) rest r
    | .error e => .error ("Step " ++ toString (i + 1) ++ ": " ++ e)

/-- `executeRecipe`'s value semantics: fold the steps over the input. -/
def executeRecipe (pf : Platform) (steps : List StepRec) (input : String) :
    Except String String :=
  runSteps pf 0 steps input

/-- The result of `detectInputType` (`dtype` is the source's `type` field). -/
structure DetectionResult where
  detected : Bool
  dtype : Option String
  confidence : String
  operation : Option String
  details : String
  analysis : List (String × Value)
deriving DecidableEq, Repr

/-- Count of non-overlapping `%XX` regex matches (hex escape sequences). -/
def countPct : List Char → Nat
  | [] => 0
  | '%' :: a :: b :: rest =>
    if (hexDigit? a).isSome ∧ (hexDigit? b).isSome then 1 + countPct rest
    else countPct (a :: b :: rest)
  | _ :: rest => countPct rest

/-- Base64 alphabet character (without padding). -/
def isB64Alpha (c : Char) : Bool :=
  ('A' ≤ c ∧ c ≤ 'Z') ∨ ('a' ≤ c ∧ c ≤ 'z') ∨ ('0' ≤ c ∧ c ≤ '9') ∨ c = '+' ∨ c = '/'

/-- The regex `^[A-Za-z0-9+/]*={0,2}$`. -/
def b64FormatOk (cs : List Char) : Bool :=
  let body := (cs.reverse.dropWhile (fun c => c = '=')).reverse
  (cs.length - body.length ≤ 2) ∧ body.all isB64Alpha

/-- `detectInputType`: the priority-ordered first-match classifier
(URL-encoded, then Base64, then hexadecimal, then plain text). -/
def detectInputType (text : String) : DetectionResult :=
  if text = "" then
    ⟨false, none, "none", none, "Input is empty or invalid", []⟩
  else
    let trimmed := jsTrim text
    if trimmed = "" then ⟨false, none, "none", none, "Input is empty", []⟩
    else
      let cleaned := String.mk (trimmed.data.filter (fun c => !jsWhitespace c))
      let urlCount := countPct trimmed.data
      if 2 ≤ urlCount then
        let conf := if 5 < urlCount then "high" else "medium"
        { detected := true, dtype := some "URL-encoded", confidence := conf,
          operation := some "urlDecode",
          details := "Found " ++ toString urlCount ++ " URL-encoded sequences",
          analysis := [("Format", Value.str "URL Encoding"),
            ("Encoded Sequences", Value.num urlCount),
            ("Total Length", Value.str (toString trimmed.length ++ " chars")),
            ("Confidence", Value.str conf),
            ("Action", Value.str "URL Decode recommended")] }
      else
        let hexOrPlain : Unit → DetectionResult := fun _ =>
          let isValidHex := cleaned.data.all (fun c => (hexDigit? c).isSome) ∧
            cleaned.length % 2 = 0 ∧ 0 < cleaned.length
          if isValidHex ∧ 8 ≤ cleaned.length then
            let conf := if 16 ≤ cleaned.length then "high" else "medium"
            { detected := true, dtype := some "Hexadecimal", confidence := conf,
              operation := some "fromHex",
              details := "Valid hexadecimal string detected",
              analysis := [("Format", Value.str "Hexadecimal"),
                ("Hex Length", Value.str (toString cleaned.length ++ " chars")),
                ("Byte Count", Value.str (toString (cleaned.length / 2) ++ " bytes")),
                ("Confidence", Value.str conf),
                ("Action", Value.str "From Hex recommended")] }
          else
            let lineCount := (trimmed.data.filter (fun c => c = '\n')).length + 1
            let wordCount := nonWSRuns none trimmed.data
            { detected := true, dtype := some "Plain Text", confidence := "high",
              operation := none, details := "Standard text input",
              analysis := [("Format", Value.str "Plain Text"),
                ("Characters", Value.num trimmed.length),
                ("Lines", Value.num lineCount),
                ("Words", Value.num wordCount),
                ("Alphanumeric Only", Value.str
                  (if trimmed.data.all (fun c =>
                      ('a' ≤ c ∧ c ≤ 'z') ∨ ('A' ≤ c ∧ c ≤ 'Z') ∨
                      ('0' ≤ c ∧ c ≤ '9') ∨ jsWhitespace c) then
                    "Yes"
                  else "No"))] }
        let isValidBase64Format := b64FormatOk cleaned.data ∧
          cleaned.length % 4 = 0 ∧ 0 < cleaned.length ∧ cleaned.data.any isB64Alpha
        if isValidBase64Format ∧ 4 ≤ cleaned.length then
          match jsAtob cleaned with
          | some decoded =>
            let isPrintable := decoded.data.all (fun c =>
              (0x20 ≤ c.toNat ∧ c.toNat ≤ 0x7E) ∨ jsWhitespace c)
            let conf := if isPrintable ∧ 0 < decoded.length then "high" else "medium"
            { detected := true, dtype := some "Base64", confidence := conf,
              operation := some "fromBase64",
              details := "Valid Base64 encoding detected",
              analysis := [("Format", Value.str "Base64 Encoding"),
                ("Encoded Length", Value.str (toString cleaned.length ++ " chars")),
                ("Decoded Length", Value.str (toString decoded.length ++ " chars")),
                ("Printable Text", Value.str (if isPrintable then "Yes" else "No")),
                ("Confidence", Value.str conf),
                ("Action", Value.str "From Base64 recommended")] }
          | none => hexOrPlain ()
        else hexOrPlain ()

/-! ### Shared verification helpers -/

instance : DecidableEq (Except String String)
  | .ok a, .ok b => if h : a = b then isTrue (by rw [h]) else isFalse (by simp [h])
  | .ok _, .error _ => isFalse (by simp)
  | .error _, .ok _ => isFalse (by simp)
  | .error a, .error b => if h : a = b then isTrue (by rw [h]) else isFalse (by simp [h])

/-- A concrete platform used to evaluate claims at closed inputs (its digest
values are irrelevant to every claim that is instantiated with it). -/
def dummyPlatform : Platform :=
  ⟨fun _ => [], fun _ => [], fun _ => [], fun _ => [],
    fun _ _ => [], fun _ _ => [], fun _ _ => 0⟩

set_option maxRecDepth 4096 in
/-- C8.  The `crc32` operation applied to `"123456789"` returns the standard
check value `"cbf43926"` (eight lowercase hex digits), computed by the
table-driven reflected-polynomial algorithm with initial/final inversion. -/
theorem crc32_check_value : crc32Fn "123456789" [] = Except.ok "cbf43926" := by
  decide

/-- C9.  `detectInputType "48656c6c6f20576f726c64"` classifies as
Hexadecimal with high confidence and suggests `fromHex` (the Base64 branch
does not fire: length 22 is not a multiple of four), while
`detectInputType "hello world"` classifies as Plain Text with high
confidence and no suggested operation. -/
theorem detect_scenarios :
    (detectInputType "48656c6c6f20576f726c64").dtype = some "Hexadecimal" ∧
    (detectInputType "48656c6c6f20576f726c64").confidence = "high" ∧
    (detectInputType "48656c6c6f20576f726c64").operation = some "fromHex" ∧
    (detectInputType "hello world").dtype = some "Plain Text" ∧
    (detectInputType "hello world").confidence = "high" ∧
    (detectInputType "hello world").operation = none := by
  decide

/-- Parameter schemas of every registry entry; they do not depend on the
platform, so the table is stated once over the concrete platform. -/
def paramsTable : List (List ParamSpec) :=
  (operations dummyPlatform).map (fun kv => kv.2.params)

/-- The schema part of the registry is platform-independent. -/
theorem operations_params_eq (pf : Platform) :
    (operations pf).map (fun kv => kv.2.params) = paramsTable := rfl

/-- No operation of the catalog declares two distinct required parameters. -/
theorem paramsTable_unique_required :
    ∀ ps ∈ paramsTable, ∀ p ∈ ps, ∀ q ∈ ps,
      p.required = true → q.required = true → p = q := by
  decide

/-- When `p` is the unique required entry of a schema and its supplied value
is falsy, the validation loop stops exactly at `p`. -/
theorem find?_required_falsy (params : Params) (ps : List ParamSpec) (p : ParamSpec)
    (hmem : p ∈ ps) (hreq : p.required = true)
    (hfalsy : jsTruthy (pget params p.name) = false)
    (huniq : ∀ q ∈ ps, q.required = true → q = p) :
    ps.find? (fun q => q.required && !jsTruthy (pget params q.name)) = some p := by
  induction ps with
  | nil => cases hmem
  | cons q ps ih =>
    by_cases hq : q.required = true
    · have hqp : q = p := huniq q (List.mem_cons_self q ps) hq
      subst hqp
      rw [List.find?_cons_of_pos]
      simp [hq, hfalsy]
    · rw [List.find?_cons_of_neg]
      · apply ih
        · rcases List.mem_cons.mp hmem with h | h
          · exact absurd (h ▸ hreq) hq
          · exact h
        · intro r hr hrreq
          exact huniq r (List.mem_cons_of_mem _ hr) hrreq
      · simp [hq]

/-- C10.  For every operation whose schema marks a parameter required,
`execute` reports the missing-parameter error naming that parameter's label
whenever the supplied value is falsy (the empty string, `0`, `false`, `null`
or `undefined`): the check sits between operation resolution and the
transform call, so such a value can never reach a transform. -/
theorem execute_missing_required_param (pf : Platform) (key input : String)
    (params : Params) (op : Op) (p : ParamSpec)
    (hop : getOp pf key = some op) (hmem : p ∈ op.params)
    (hreq : p.required = true) (hfalsy : jsTruthy (pget params p.name) = false) :
    execute pf key input params =
      Except.error ("Parameter \"" ++ p.label ++ "\" is required") := by
  have hps : op.params ∈ paramsTable := by
    rw [← operations_params_eq pf]
    unfold getOp at hop
    cases hfind : (operations pf).find? (fun kv => kv.1 = key) with
    | none => rw [hfind] at hop; cases hop
    | some kv =>
      rw [hfind] at hop
      have hkv : kv ∈ operations pf := List.mem_of_find?_eq_some hfind
      have hkv2 : kv.2 = op := by simpa using hop
      exact hkv2 ▸ List.mem_map_of_mem _ hkv
  have huniq : ∀ q ∈ op.params, q.required = true → q = p := by
    intro q hq hqreq
    exact paramsTable_unique_required op.params hps q hq p hmem hqreq hreq
  unfold execute
  rw [hop]
  dsimp only
  rw [find?_required_falsy params op.params p hmem hreq hfalsy huniq]

/-- Witness for C10: the number 0 supplied for Caesar's required shift is
rejected with the labelled missing-parameter error. -/
theorem execute_missing_required_param_witness :
    execute dummyPlatform "caesar" "abc" [("shift", Value.num 0)] =
      Except.error ("Parameter \"Shift Amount\" is required") :=
  execute_missing_required_param dummyPlatform "caesar" "abc"
    [("shift", Value.num 0)] _
    ⟨"shift", "Shift Amount", "number", some (Value.str "3"), some 1, some 25, true,
      none, none⟩ rfl (by decide) rfl (by decide)

/-- Splitting the step loop at a list append: the suffix runs only if the
prefix succeeded, with the step counter advanced by the prefix length. -/
theorem runSteps_append (pf : Platform) (xs ys : List StepRec) (i : Nat)
    (acc : String) :
    runSteps pf i (xs ++ ys) acc =
      match runSteps pf i xs acc with
      | .ok v => runSteps pf (i + xs.length) ys v
      | .error e => .error e := by
  induction xs generalizing i acc with
  | nil => simp [runSteps]
  | cons s xs ih =>
    rw [List.cons_append, runSteps, runSteps]
    cases execute pf s.op acc s.params with
    | ok r =>
      dsimp only
      rw [ih (i + 1) r]
      have : i + 1 + xs.length = i + (xs.length + 1) := by omega
      rw [this]
      rfl
    | error e => rfl

/-- C1.  If every step of the prefix succeeds and the next step's `execute`
call fails (operation resolution, required-parameter validation or the
transform itself), the run-to-completion executor reports exactly that
step's 1-based index with the underlying message, and the result does not
depend on the remaining steps — they are never executed. -/
theorem executeRecipe_short_circuit (pf : Platform) (pre : List StepRec)
    (bad : StepRec) (rest : List StepRec) (input mid e : String)
    (hpre : runSteps pf 0 pre input = .ok mid)
    (hbad : execute pf bad.op mid bad.params = .error e) :
    executeRecipe pf (pre ++ bad :: rest) input =
      Except.error ("Step " ++ toString (pre.length + 1) ++ ": " ++ e) := by
  unfold executeRecipe
  rw [runSteps_append, hpre]
  dsimp only
  rw [runSteps, hbad]
  dsimp only
  rw [Nat.zero_add]

/-- Witness for C1: a recipe whose second step is Caesar with shift 30 fails
attributed to step 2, with the third step never applied. -/
theorem executeRecipe_short_circuit_witness :
    executeRecipe dummyPlatform
        [⟨"rot13", []⟩, ⟨"caesar", [("shift", Value.str "30")]⟩, ⟨"reverse", []⟩]
        "Hi" =
      Except.error ("Step " ++ toString (1 + 1) ++ ": " ++
        "Shift must be between 1 and 25") :=
  executeRecipe_short_circuit dummyPlatform [⟨"rot13", []⟩]
    ⟨"caesar", [("shift", Value.str "30")]⟩ [⟨"reverse", []⟩] "Hi" "Uv"
    "Shift must be between 1 and 25" (by decide) (by decide)

set_option maxRecDepth 4096 in
/-- Every byte renders as exactly two hex characters. -/
theorem hexPair_length_fin : ∀ b : Fin 256, (hexPair b.val).length = 2 := by decide

/-- Taking `2 * k` hex characters is rendering the first `k` bytes. -/
theorem hexOfBytes_take (l : List (Fin 256)) (k : Nat) :
    (hexOfBytes l).take (2 * k) = hexOfBytes (l.take k) := by
  induction l generalizing k with
  | nil => simp [hexOfBytes]
  | cons b bs ih =>
    cases k with
    | zero => simp [hexOfBytes]
    | succ k =>
      rw [hexOfBytes, List.flatMap_cons, List.take_succ_cons,
        show 2 * (k + 1) = (hexPair b.val).length + 2 * k by
          rw [hexPair_length_fin b]; omega,
        List.take_append, hexOfBytes, List.flatMap_cons]
      rw [← hexOfBytes, ← hexOfBytes, ih]

/-- C7.  The simulated `md5` output is exactly the first 32 hex characters
(sixteen bytes) of the `sha1` output on the same input, for every platform
SHA-1 primitive shared by the two embeddings: the `md5` entry is a truncated
SHA-1, not real MD5. -/
theorem md5_truncated_sha1 (pf : Platform) (input : String) (p q : Params) :
    md5Fn pf input p =
      Except.map (fun s => String.mk (s.data.take 32)) (sha1Fn pf input q) := by
  unfold md5Fn sha1Fn
  dsimp [Except.map]
  have h : (hexOfBytes (pf.sha1 (utf8Encode input))).take 32 =
      hexOfBytes ((pf.sha1 (utf8Encode input)).take 16) := by
    rw [show (32 : Nat) = 2 * 16 from rfl, hexOfBytes_take]
  rw [h]

/-- Character order is scalar-value order. -/
theorem char_le_char (a b : Char) : (a ≤ b) ↔ (a.toNat ≤ b.toNat) := Iff.rfl

/-- C4 counterexample: a supplied shift of `"0"` (and equally the number 0
reaching the transform) does not make Caesar fail — `parseInt(shift) || 3`
silently falls back to the default shift 3 and the operation succeeds. -/
theorem caesar_shift_zero_counterexample :
    execute dummyPlatform "caesar" "abc" [("shift", Value.str "0")] =
        Except.ok "def" ∧
      execute dummyPlatform "caesarDecrypt" "def" [("shift", Value.str "0")] =
        Except.ok "abc" := by
  decide

/-- Spec-side description of the Caesar letter mapping: ASCII letters are
shifted by `n` modulo 26 with case preserved, all other characters pass
through unchanged. -/
def caesarSpecChar (n : Nat) (c : Char) : Char :=
  if 'a' ≤ c ∧ c ≤ 'z' then Char.ofNat (97 + (c.toNat - 97 + n) % 26)
  else if 'A' ≤ c ∧ c ≤ 'Z' then Char.ofNat (65 + (c.toNat - 65 + n) % 26)
  else c

/-- The code's letter rotation agrees with the spec-side description for
shifts in `[1, 26]`. -/
theorem shiftLetter_eq_spec (k : Nat) (_h1 : 1 ≤ k) (_h2 : k ≤ 26) (c : Char) :
    shiftLetter (k : Int) c = caesarSpecChar k c := by
  unfold shiftLetter caesarSpecChar
  dsimp only
  by_cases hl : 'a' ≤ c ∧ c ≤ 'z'
  · have hln : 97 ≤ c.toNat := (char_le_char 'a' c).mp hl.1
    have hlz : c.toNat ≤ 122 := (char_le_char c 'z').mp hl.2
    have hletter : isAsciiLetter c = true := by
      simp only [isAsciiLetter, decide_eq_true_eq]
      exact Or.inl hl
    rw [if_pos hletter, if_pos hl]
    have h90 : ¬(c.toNat ≤ 90) := by omega
    rw [if_neg h90]
    congr 1
    omega
  · by_cases hu : 'A' ≤ c ∧ c ≤ 'Z'
    · have hun : 65 ≤ c.toNat := (char_le_char 'A' c).mp hu.1
      have huz : c.toNat ≤ 90 := (char_le_char c 'Z').mp hu.2
      have hletter : isAsciiLetter c = true := by
        simp only [isAsciiLetter, decide_eq_true_eq]
        exact Or.inr hu
      rw [if_pos hletter, if_neg hl, if_pos hu, if_pos (by omega : c.toNat ≤ 90)]
      congr 1
      omega
    · have hletter : isAsciiLetter c = false := by
        simp only [isAsciiLetter, decide_eq_false_iff_not, not_or]
        exact ⟨hl, hu⟩
      rw [if_neg (by simp [hletter]), if_neg hl, if_neg hu]

/-- C4 (amended).  For a supplied shift value `v`: when `parseInt` yields
`NaN` or `0` the operations silently use the default shift 3 and succeed;
when it yields an integer outside `[1, 25]` other than 0 both operations
fail with the range error; when it yields `n ∈ [1, 25]` both succeed, the
encrypt direction shifting ASCII letters by `n` mod 26 case-preserving with
non-letters unchanged, and decrypt by the negated shift `(26 - n) % 26`. -/
theorem caesar_amended (input : String) (v : Value) :
    ((jsParseIntV (some v) = none ∨ jsParseIntV (some v) = some 0) →
      caesarFn input [("shift", v)] =
          Except.ok (String.mk (input.data.map (caesarSpecChar 3))) ∧
        caesarDecryptFn input [("shift", v)] =
          Except.ok (String.mk (input.data.map (caesarSpecChar 23)))) ∧
    (∀ n : Int, jsParseIntV (some v) = some n → n ≠ 0 → (n < 1 ∨ 25 < n) →
      caesarFn input [("shift", v)] = Except.error "Shift must be between 1 and 25" ∧
        caesarDecryptFn input [("shift", v)] =
          Except.error "Shift must be between 1 and 25") ∧
    (∀ n : Int, jsParseIntV (some v) = some n → 1 ≤ n → n ≤ 25 →
      caesarFn input [("shift", v)] =
          Except.ok (String.mk (input.data.map (caesarSpecChar n.toNat))) ∧
        caesarDecryptFn input [("shift", v)] =
          Except.ok (String.mk (input.data.map (caesarSpecChar ((26 - n.toNat) % 26))))) := by
  have hp : pget [("shift", v)] "shift" = some v := rfl
  refine ⟨?_, ?_, ?_⟩
  · intro h
    have hs : caesarShiftParam [("shift", v)] = 3 := by
      unfold caesarShiftParam jsParseIntV
      rw [hp]
      rcases h with h | h <;> (unfold jsParseIntV at h; rw [h]; try simp)
    constructor
    · unfold caesarFn
      rw [hs, if_neg (by omega)]
      exact congrArg Except.ok (congrArg String.mk
        (List.map_congr_left fun c _ => shiftLetter_eq_spec 3 (by omega) (by omega) c))
    · unfold caesarDecryptFn
      rw [hs, if_neg (by omega)]
      have h23 : (26 : Int) - 3 = ((23 : Nat) : Int) := by omega
      rw [h23]
      exact congrArg Except.ok (congrArg String.mk
        (List.map_congr_left fun c _ => shiftLetter_eq_spec 23 (by omega) (by omega) c))
  · intro n hn hn0 hrange
    have hs : caesarShiftParam [("shift", v)] = n := by
      unfold caesarShiftParam jsParseIntV
      rw [hp]
      unfold jsParseIntV at hn
      rw [hn]
      simp [hn0]
    constructor
    · unfold caesarFn
      rw [hs, if_pos hrange]
    · unfold caesarDecryptFn
      rw [hs, if_pos hrange]
  · intro n hn h1 h25
    have hs : caesarShiftParam [("shift", v)] = n := by
      unfold caesarShiftParam jsParseIntV
      rw [hp]
      unfold jsParseIntV at hn
      rw [hn]
      simp [show n ≠ 0 by omega]
    have hnn : ((n.toNat : Int)) = n := Int.toNat_of_nonneg (by omega)
    constructor
    · unfold caesarFn
      rw [hs, if_neg (by omega)]
      rw [← hnn]
      exact congrArg Except.ok (congrArg String.mk
        (List.map_congr_left fun c _ =>
          shiftLetter_eq_spec n.toNat (by omega) (by omega) c))
    · unfold caesarDecryptFn
      rw [hs, if_neg (by omega)]
      have h26 : (26 : Int) - n = ((26 - n.toNat : Nat) : Int) := by omega
      have hmod : (26 - n.toNat) % 26 = 26 - n.toNat := by omega
      rw [h26, hmod]
      exact congrArg Except.ok (congrArg String.mk
        (List.map_congr_left fun c _ =>
          shiftLetter_eq_spec (26 - n.toNat) (by omega) (by omega) c))

/-- Witness for C4 (amended): shift 5 encrypts `"Az!"` to `"Fe!"` and
decrypts it back. -/
theorem caesar_amended_witness :
    caesarFn "Az!" [("shift", Value.str "5")] = Except.ok "Fe!" ∧
      caesarDecryptFn "Fe!" [("shift", Value.str "5")] = Except.ok "Az!" := by
  have h1 := (caesar_amended "Az!" (Value.str "5")).2.2 5 (by decide) (by decide)
    (by decide)
  have h2 := (caesar_amended "Fe!" (Value.str "5")).2.2 5 (by decide) (by decide)
    (by decide)
  exact ⟨h1.1.trans (by decide), h2.2.trans (by decide)⟩

/-- Conversion back from `Char.ofNat` below the surrogate range. -/
theorem char_toNat_ofNat (n : Nat) (h : n < 55296) : (Char.ofNat n).toNat = n := by
  rw [Char.ofNat, dif_pos (show n.isValidChar from Or.inl h)]
  rfl

/-- C5 counterexample: an alphabet of 26 distinct characters that are not
all letters (ten digits among them) passes validation and is applied, so the
claim that any alphabet containing a non-letter is rejected fails. -/
theorem substitution_nonletter_counterexample :
    substitutionFn "ab" [("alphabet", Value.str "0123456789ABCDEFGHIJKLMNOP")] =
      Except.ok "01" := by
  decide

/-- Spec-side positional substitution: `'A' + i` maps to `alphabet[i]`,
case preserved, non-letters unchanged. -/
def substitutionSpecChar (alphabet : List Char) (c : Char) : Char :=
  if 'a' ≤ c ∧ c ≤ 'z' then asciiLowerChar (alphabet.getD (c.toNat - 97) (Char.ofNat 0))
  else if 'A' ≤ c ∧ c ≤ 'Z' then alphabet.getD (c.toNat - 65) (Char.ofNat 0)
  else c

/-- C5 (amended).  The substitution alphabet is uppercased and rejected with
the uniqueness error exactly when its length differs from 26 or its distinct
characters (the `Set` size) number fewer than 26; repeated letters and wrong
lengths are rejected, but 26 distinct characters pass validation even when
some are not letters, and the input is then mapped positionally. -/
theorem substitution_amended (input a : String) (ha : a ≠ "") :
    ((jsToUpper a).data.length ≠ 26 ∨ (jsToUpper a).data.eraseDups.length ≠ 26 →
      substitutionFn input [("alphabet", Value.str a)] =
        Except.error "Alphabet must contain exactly 26 unique letters") ∧
    ((jsToUpper a).data.length = 26 → (jsToUpper a).data.eraseDups.length = 26 →
      substitutionFn input [("alphabet", Value.str a)] =
        Except.ok (String.mk
          (input.data.map (substitutionSpecChar (jsToUpper a).data)))) := by
  have hp : pget [("alphabet", Value.str a)] "alphabet" = some (Value.str a) := rfl
  have htruthy : jsTruthy (some (Value.str a)) = true := by
    simp [jsTruthy, ha]
  constructor
  · intro hbad
    unfold substitutionFn
    simp only [hp, htruthy, Bool.not_true, Bool.false_eq_true, if_false, jsValToString]
    rw [if_pos hbad]
  · intro hlen hdis
    unfold substitutionFn
    simp only [hp, htruthy, Bool.not_true, Bool.false_eq_true, if_false, jsValToString]
    rw [if_neg (by simp [hlen, hdis])]
    refine congrArg Except.ok (congrArg String.mk
      (List.map_congr_left fun c _ => ?_))
    unfold substitutionSpecChar
    by_cases hl : 'a' ≤ c ∧ c ≤ 'z'
    · rw [if_pos hl, if_pos hl]
      have hln : 97 ≤ c.toNat := (char_le_char 'a' c).mp hl.1
      have hlz : c.toNat ≤ 122 := (char_le_char c 'z').mp hl.2
      have hup : asciiUpperChar c = Char.ofNat (c.toNat - 32) := by
        unfold asciiUpperChar
        rw [if_pos hl]
      rw [hup, char_toNat_ofNat (c.toNat - 32) (by omega)]
      have : c.toNat - 32 - 65 = c.toNat - 97 := by omega
      rw [this]
    · rw [if_neg hl, if_neg hl]

/-- Witness for C5 (amended): a 26-letter permutation is accepted and
applied positionally with case preserved. -/
theorem substitution_amended_witness :
    substitutionFn "Az" [("alphabet", Value.str "QWERTYUIOPASDFGHJKLZXCVBNM")] =
      Except.ok "Qm" := by
  have h := (substitution_amended "Az" "QWERTYUIOPASDFGHJKLZXCVBNM"
    (by decide)).2 (by decide) (by decide)
  exact h.trans (by decide)

/-! ### Facts supporting the hex round trip (C2) and fromHex behaviour (C3) -/

/-- The encoding of a character is never empty. -/
theorem utf8EncodeChar_ne_nil (c : Char) : utf8EncodeChar c ≠ [] := by
  unfold utf8EncodeChar
  split
  · simp
  · split
    · simp
    · split <;> simp

/-- UTF-8 bytes are below 256. -/
theorem utf8Encode_lt_256 (s : String) : ∀ b ∈ utf8Encode s, b < 256 := by
  intro b hb
  unfold utf8Encode at hb
  rcases List.mem_flatMap.mp hb with ⟨c, _, hbc⟩
  have hval := char_toNat_valid c
  unfold utf8EncodeChar at hbc
  split at hbc
  · simp at hbc; omega
  · split at hbc
    · simp at hbc; rcases hbc with h | h <;> omega
    · split at hbc
      · simp at hbc; rcases hbc with h | h | h <;> omega
      · simp at hbc; rcases hbc with h | h | h | h <;> omega

set_option maxRecDepth 8192 in
/-- Per-byte facts about the two-digit hex rendering: its length is two, its
characters are never stripped by the `fromHex` separator cleanup, and
`parseInt(·, 16)` recovers the byte. -/
theorem hexPair_facts : ∀ b : Fin 256,
    (hexPair b.val).length = 2 ∧ (∀ c ∈ hexPair b.val, hexSeparator c = false) ∧
      jsParseInt16 (String.mk (hexPair b.val)) = some (b.val : Int) := by
  decide

/-- Flattened two-character blocks have even total length. -/
theorem flatMap_hexPair_length (l : List Nat) (h : ∀ b ∈ l, b < 256) :
    (l.flatMap hexPair).length = 2 * l.length := by
  induction l with
  | nil => rfl
  | cons b bs ih =>
    rw [List.flatMap_cons, List.length_append,
      (hexPair_facts ⟨b, h b (List.mem_cons_self b bs)⟩).1,
      ih (fun x hx => h x (List.mem_cons_of_mem b hx))]
    simp [Nat.mul_succ]; omega

/-- Chunking the concatenation of two-character blocks recovers the blocks. -/
theorem chunks12_flatMap_hexPair (l : List Nat) (h : ∀ b ∈ l, b < 256) :
    chunks12 (l.flatMap hexPair) = l.map hexPair := by
  induction l with
  | nil => rfl
  | cons b bs ih =>
    have hb2 := (hexPair_facts ⟨b, h b (List.mem_cons_self b bs)⟩).1
    obtain ⟨c1, c2, hpair⟩ : ∃ c1 c2, hexPair b = [c1, c2] := by
      cases hp : hexPair b with
      | nil => rw [hp] at hb2; cases hb2
      | cons c1 t =>
        cases t with
        | nil => rw [hp] at hb2; cases hb2
        | cons c2 t2 =>
          cases t2 with
          | nil => exact ⟨c1, c2, rfl⟩
          | cons c3 t3 => rw [hp] at hb2; simp at hb2
    rw [List.flatMap_cons, List.map_cons, hpair, List.cons_append, List.cons_append,
      List.nil_append, chunks12, ih (fun x hx => h x (List.mem_cons_of_mem b hx)),
      ← hpair]

/-- Accumulator form of `String.intercalate` with the empty separator. -/
theorem intercalate_go_empty (acc : String) (as : List String) :
    String.intercalate.go acc "" as = String.mk (acc.data ++ as.flatMap String.data) := by
  induction as generalizing acc with
  | nil =>
    rw [String.intercalate.go]
    cases acc
    simp
  | cons a as ih =>
    rw [String.intercalate.go, ih]
    congr 1
    rw [show (acc ++ "" ++ a).data = acc.data ++ "".data ++ a.data from rfl]
    simp

/-- Joining with the empty separator concatenates the pieces. -/
theorem intercalate_empty (l : List String) :
    String.intercalate "" l = String.mk (l.flatMap String.data) := by
  cases l with
  | nil => rfl
  | cons a as =>
    rw [String.intercalate, intercalate_go_empty]
    simp

/-- A non-empty string has a non-empty UTF-8 encoding. -/
theorem utf8Encode_ne_nil (x : String) (h : x ≠ "") : utf8Encode x ≠ [] := by
  unfold utf8Encode
  cases hd : x.data with
  | nil => exact absurd (by cases x; simp_all) h
  | cons c cs =>
    rw [List.flatMap_cons]
    intro he
    exact utf8EncodeChar_ne_nil c (List.append_eq_nil.mp he).1

/-- The `toHex` output with an empty separator is exactly the concatenated
hex pairs of the UTF-8 bytes. -/
theorem toHexFn_empty_sep (x : String) :
    toHexFn x [("separator", Value.str "")] =
      Except.ok (String.mk ((utf8Encode x).flatMap hexPair)) := by
  unfold toHexFn
  dsimp only
  rw [show (if jsTruthy (pget [("separator", Value.str "")] "separator") = true then
      jsValToString (pget [("separator", Value.str "")] "separator")
    else "") = "" from by decide]
  rw [intercalate_empty, List.flatMap_map]

/-- C2 counterexample: `fromHex` of the empty string does not return the
empty string — the cleaned string is empty, `"".match(/.{1,2}/g)` is `null`,
and the `.map` TypeError is re-thrown as an invalid-hex error. -/
theorem fromHex_empty_counterexample : fromHexFn "" [] ≠ Except.ok "" := by decide

/-- C2 (amended).  `toHex` of the empty string is the empty string, and for
every non-empty string not beginning with U+FEFF (a leading byte-order mark
would be stripped by `TextDecoder`), `fromHex ∘ toHex` with an empty
separator is the identity; `fromHex ""` instead raises an error. -/
theorem hex_roundTrip_amended (x : String) (hne : x ≠ "")
    (hbom : x.data.head? ≠ some '﻿') :
    toHexFn "" [("separator", Value.str "")] = Except.ok "" ∧
      (toHexFn x [("separator", Value.str "")]).bind (fun s => fromHexFn s []) =
        Except.ok x := by
  refine ⟨by decide, ?_⟩
  rw [toHexFn_empty_sep]
  show fromHexFn (String.mk ((utf8Encode x).flatMap hexPair)) [] = Except.ok x
  have hlt : ∀ b ∈ utf8Encode x, b < 256 := utf8Encode_lt_256 x
  unfold fromHexFn
  have hclean : ((utf8Encode x).flatMap hexPair).filter (fun c => !hexSeparator c) =
      (utf8Encode x).flatMap hexPair := by
    rw [List.filter_eq_self]
    intro c hc
    rcases List.mem_flatMap.mp hc with ⟨b, hb, hcb⟩
    rw [((hexPair_facts ⟨b, hlt b hb⟩).2.1 c hcb)]
    rfl
  rw [show (String.mk ((utf8Encode x).flatMap hexPair)).data =
      (utf8Encode x).flatMap hexPair from rfl, hclean]
  dsimp only
  rw [flatMap_hexPair_length _ hlt]
  rw [if_neg (by omega)]
  rw [chunks12_flatMap_hexPair _ hlt]
  cases hb : utf8Encode x with
  | nil => exact absurd hb (utf8Encode_ne_nil x hne)
  | cons b bs =>
    rw [List.map_cons]
    dsimp only
    have hmap : ((b :: bs).map hexPair).map (fun p => jsParseInt16 (String.mk p)) =
        (b :: bs).map (fun v => some (Int.ofNat v)) := by
      rw [List.map_map]
      refine List.map_congr_left fun v hv => ?_
      exact (hexPair_facts ⟨v, hlt v (hb ▸ hv)⟩).2.2
    rw [← List.map_cons hexPair b bs, hmap]
    have hany : (((b :: bs).map (fun v => some (Int.ofNat v))).any
        (fun o => o.isNone)) = false := by
      simp
    rw [hany]
    rw [if_neg (by decide : ¬((false : Bool) = true))]
    have hback : ((b :: bs).map (fun v => some (Int.ofNat v))).map
        (fun o => ((o.getD 0).toNat % 256)) = b :: bs := by
      rw [List.map_map]
      refine Eq.trans (List.map_congr_left ?_) (List.map_id (b :: bs))
      intro v hv
      have hv256 : v < 256 := hlt v (hb ▸ hv)
      simp [Function.comp, Option.getD]
      omega
    rw [hback, ← hb]
    unfold textDecode
    rw [stripBOM_eq_self _ (utf8Encode_no_bom x hbom)]
    rw [show utf8Encode x = x.data.flatMap utf8EncodeChar from rfl,
      utf8DecodeLoop_encodeList]

/-- Witness for C2 (amended): a string with multi-byte UTF-8 characters
round-trips through `toHex`/`fromHex`. -/
theorem hex_roundTrip_amended_witness :
    toHexFn "" [("separator", Value.str "")] = Except.ok "" ∧
      (toHexFn "héllo ☃" [("separator", Value.str "")]).bind
          (fun s => fromHexFn s []) =
        Except.ok "héllo ☃" :=
  hex_roundTrip_amended "héllo ☃" (by decide) (by decide)

/-- C3 counterexample: `"4g"` contains a non-hex character, yet `fromHex`
does not fail — `parseInt("4g", 16)` truncates to `4` and a one-byte output
is produced. -/
theorem fromHex_nonhex_counterexample : fromHexFn "4g" [] = Except.ok "\x04" := by
  decide

/-- Scalar-value ranges of a hex digit. -/
theorem hexDigit_ranges (c : Char) (h : (hexDigit? c).isSome = true) :
    (48 ≤ c.toNat ∧ c.toNat ≤ 57) ∨ (97 ≤ c.toNat ∧ c.toNat ≤ 102) ∨
      (65 ≤ c.toNat ∧ c.toNat ≤ 70) := by
  unfold hexDigit? at h
  by_cases h1 : '0' ≤ c ∧ c ≤ '9'
  · exact Or.inl ⟨(char_le_char '0' c).mp h1.1, (char_le_char c '9').mp h1.2⟩
  · rw [if_neg h1] at h
    by_cases h2 : 'a' ≤ c ∧ c ≤ 'f'
    · exact Or.inr (Or.inl ⟨(char_le_char 'a' c).mp h2.1, (char_le_char c 'f').mp h2.2⟩)
    · rw [if_neg h2] at h
      by_cases h3 : 'A' ≤ c ∧ c ≤ 'F'
      · exact Or.inr (Or.inr
          ⟨(char_le_char 'A' c).mp h3.1, (char_le_char c 'F').mp h3.2⟩)
      · rw [if_neg h3] at h
        cases h

/-- Hex digits are not JS whitespace. -/
theorem hexDigit_not_ws (c : Char) (h : (hexDigit? c).isSome = true) :
    jsWhitespace c = false := by
  have hr := hexDigit_ranges c h
  unfold jsWhitespace
  rw [decide_eq_false_iff_not]
  omega

/-- A two-character group whose characters are both hex digits always parses
under `parseInt(·, 16)`. -/
theorem pair_parses (a b : Char) (ha : (hexDigit? a).isSome = true)
    (hb : (hexDigit? b).isSome = true) :
    (jsParseInt16 (String.mk [a, b])).isSome = true := by
  have hra := hexDigit_ranges a ha
  have hrb := hexDigit_ranges b hb
  unfold jsParseInt16 jsParseIntSigned
  dsimp only
  have hdw : List.dropWhile jsWhitespace [a, b] = [a, b] := by
    rw [List.dropWhile_cons, hexDigit_not_ws a ha]
    simp
  rw [hdw]
  have hbody : (jsParseIntBody16 [a, b]).isSome = true := by
    rw [jsParseIntBody16.eq_def]
    split
    · rename_i x rest heq
      have hax : a = '0' ∧ b = x ∧ rest = ([] : List Char) := by
        have h1 := List.cons.inj heq
        have h2 := List.cons.inj h1.2
        exact ⟨h1.1, h2.1, h2.2.symm⟩
      obtain ⟨ha0, hbx, hrest⟩ := hax
      have hxne : ¬(x = 'x' ∨ x = 'X') := by
        intro hcase
        rcases hcase with hx | hx <;>
          (rw [hbx, hx] at hrb; exact absurd hrb (by decide))
      rw [if_neg hxne]
      unfold digitsPrefix
      dsimp only
      rw [if_pos (by decide : (hexDigit? '0').isSome = true)]
      rfl
    · rename_i hne
      unfold digitsPrefix
      dsimp only
      rw [if_pos ha]
      rfl
  cases hopt : jsParseIntBody16 [a, b] with
  | none => rw [hopt] at hbody; cases hbody
  | some v =>
    split
    · rename_i rest heq
      have ha' : a = '-' := (List.cons.inj heq).1
      rw [ha'] at hra
      exact absurd hra (by decide)
    · rename_i rest heq
      have ha' : a = '+' := (List.cons.inj heq).1
      rw [ha'] at hra
      exact absurd hra (by decide)
    · rw [hopt]
      rfl

/-- `chunks12` of the empty list is empty, and conversely. -/
theorem chunks12_eq_nil (l : List Char) : chunks12 l = [] ↔ l = [] := by
  cases l with
  | nil => simp [chunks12]
  | cons a t => cases t <;> simp [chunks12]

/-- On an even-length list every chunk is a two-character group drawn from
the list. -/
theorem chunks12_pairs_of_even :
    ∀ l : List Char, l.length % 2 = 0 → ∀ pr ∈ chunks12 l,
      ∃ a b, pr = [a, b] ∧ a ∈ l ∧ b ∈ l := by
  intro l
  induction l using chunks12.induct with
  | case1 =>
    intro _ pr hpr
    simp [chunks12] at hpr
  | case2 a =>
    intro h
    simp at h
  | case3 a b rest ih =>
    intro h pr hpr
    rw [chunks12] at hpr
    rcases List.mem_cons.mp hpr with h1 | h1
    · exact ⟨a, b, h1, by simp, by simp⟩
    · obtain ⟨x, y, hxy, hx, hy⟩ := ih (by simp at h ⊢; omega) pr h1
      exact ⟨x, y, hxy, by simp [hx], by simp [hy]⟩

/-- C3 (amended).  `fromHex` first strips whitespace, colon, comma and dash
separators.  It then fails on an empty cleaned string (the `null.map`
TypeError) and on odd cleaned length; otherwise it parses each two-character
group with `parseInt(·, 16)` and fails exactly when some group yields `NaN`.
Groups of two hex digits always parse, so an all-hex even input decodes —
but a group may parse despite a non-hex second character (`parseInt`
truncates), so non-hex input is not always rejected. -/
theorem fromHex_amended (s : String) :
    (s.data.filter (fun c => !hexSeparator c) = [] →
      fromHexFn s [] = Except.error ("Invalid hex string: " ++ nullMapMessage)) ∧
    (¬(s.data.filter (fun c => !hexSeparator c)).length % 2 = 0 →
      fromHexFn s [] =
        Except.error ("Invalid hex string: " ++ "Hex string length must be even")) ∧
    (s.data.filter (fun c => !hexSeparator c) ≠ [] →
      (s.data.filter (fun c => !hexSeparator c)).length % 2 = 0 →
      (((chunks12 (s.data.filter (fun c => !hexSeparator c))).map
            (fun p => jsParseInt16 (String.mk p))).any (fun o => o.isNone) = true →
        fromHexFn s [] =
          Except.error ("Invalid hex string: " ++ "Invalid hex characters")) ∧
      (((chunks12 (s.data.filter (fun c => !hexSeparator c))).map
            (fun p => jsParseInt16 (String.mk p))).any (fun o => o.isNone) = false →
        fromHexFn s [] = Except.ok (textDecode
          (((chunks12 (s.data.filter (fun c => !hexSeparator c))).map
              (fun p => jsParseInt16 (String.mk p))).map
            (fun o => (o.getD 0).toNat % 256))))) ∧
    ((∀ c ∈ s.data.filter (fun c => !hexSeparator c), (hexDigit? c).isSome = true) →
      s.data.filter (fun c => !hexSeparator c) ≠ [] →
      (s.data.filter (fun c => !hexSeparator c)).length % 2 = 0 →
      ∃ out, fromHexFn s [] = Except.ok out) := by
  refine ⟨?_, ?_, ?_, ?_⟩
  · intro hnil
    unfold fromHexFn
    rw [hnil]
    rfl
  · intro hodd
    unfold fromHexFn
    dsimp only
    rw [if_pos hodd]
  · intro hne heven
    cases hch : chunks12 (s.data.filter (fun c => !hexSeparator c)) with
    | nil => exact absurd ((chunks12_eq_nil _).mp hch) hne
    | cons ch cht =>
      constructor
      · intro hany
        unfold fromHexFn
        dsimp only
        rw [if_neg (by omega), hch]
        dsimp only
        rw [hany]
        rfl
      · intro hany
        unfold fromHexFn
        dsimp only
        rw [if_neg (by omega), hch]
        dsimp only
        rw [hany]
        rfl
  · intro hall hne heven
    have hnone : ((chunks12 (s.data.filter (fun c => !hexSeparator c))).map
        (fun p => jsParseInt16 (String.mk p))).any (fun o => o.isNone) = false := by
      rw [List.any_eq_false]
      intro o ho
      rcases List.mem_map.mp ho with ⟨pr, hpr, hpo⟩
      obtain ⟨a, b, hab, hma, hmb⟩ := chunks12_pairs_of_even _ heven pr hpr
      have := pair_parses a b (hall a hma) (hall b hmb)
      rw [← hpo, hab]
      simp only [Option.isNone]
      cases hj : jsParseInt16 (String.mk [a, b]) with
      | none => rw [hj] at this; cases this
      | some v => simp
    cases hch : chunks12 (s.data.filter (fun c => !hexSeparator c)) with
    | nil => exact absurd ((chunks12_eq_nil _).mp hch) hne
    | cons ch cht =>
      refine ⟨textDecode (((ch :: cht).map (fun p => jsParseInt16 (String.mk p))).map
        (fun o => (o.getD 0).toNat % 256)), ?_⟩
      unfold fromHexFn
      dsimp only
      rw [if_neg (by omega), hch]
      dsimp only
      rw [hch] at hnone
      rw [hnone]
      rfl

/-- Witness for C3 (amended): `"de:ad, be-ef"` cleans to eight hex digits
and decodes; `"gg"` fails with the invalid-character error; `"abc"` fails
with the odd-length error. -/
theorem fromHex_amended_witness :
    fromHexFn "gg" [] =
        Except.error ("Invalid hex string: " ++ "Invalid hex characters") ∧
      fromHexFn "abc" [] =
        Except.error ("Invalid hex string: " ++ "Hex string length must be even") ∧
      ∃ out, fromHexFn "de:ad, be-ef" [] = Except.ok out := by
  refine ⟨?_, ?_, ?_⟩
  · exact ((fromHex_amended "gg").2.2.1 (by decide) (by decide)).1 (by decide)
  · exact (fromHex_amended "abc").2.1 (by decide)
  · exact (fromHex_amended "de:ad, be-ef").2.2.2 (by decide) (by decide) (by decide)

/-! ### Rail Fence round trip (C6) -/

/-- The walk records one rail per character. -/
theorem railWalk_length (rails : Int) :
    ∀ (n : Nat) (rail dir : Int), (railWalk rails n rail dir).length = n := by
  intro n
  induction n with
  | zero => intro rail dir; rfl
  | succ n ih =>
    intro rail dir
    rw [railWalk, List.length_cons, ih]

/-- Every rail the walk visits lies in `[0, rails)`: the walk maintains a
direction pointing strictly inside the fence. -/
theorem railWalk_bounds (rails : Int) (h2 : 2 ≤ rails) :
    ∀ (n : Nat) (rail dir : Int), 0 ≤ rail → rail ≤ rails - 1 →
      (dir = 1 ∨ dir = -1) → (dir = 1 → rail ≤ rails - 2) →
      (dir = -1 → 1 ≤ rail) →
      ∀ t ∈ railWalk rails n rail dir, 0 ≤ t ∧ t < rails := by
  intro n
  induction n with
  | zero =>
    intro rail dir _ _ _ _ _ t ht
    cases ht
  | succ n ih =>
    intro rail dir h0 h1 hd hup hdown t ht
    rw [railWalk] at ht
    rcases List.mem_cons.mp ht with rfl | ht
    · exact ⟨h0, by omega⟩
    · rcases hd with rfl | rfl
      · by_cases hb : rail + 1 = 0 ∨ rail + 1 = rails - 1
        · rw [if_pos hb] at ht
          exact ih (rail + 1) (-1) (by omega) (by omega) (Or.inr rfl)
            (by omega) (by omega) t ht
        · rw [if_neg hb] at ht
          exact ih (rail + 1) 1 (by omega) (by omega) (Or.inl rfl)
            (fun _ => by omega) (by omega) t ht
      · by_cases hb : rail + -1 = 0 ∨ rail + -1 = rails - 1
        · rw [if_pos hb] at ht
          exact ih (rail + -1) 1 (by omega) (by omega) (Or.inl rfl)
            (fun _ => by omega) (by omega) t ht
        · rw [if_neg hb] at ht
          exact ih (rail + -1) (-1) (by omega) (by omega) (Or.inr rfl)
            (by omega) (fun _ => by omega) t ht

/-- The pattern has one entry per character, all in `[0, rails)`. -/
theorem railPattern_bounds (rails : Int) (h2 : 2 ≤ rails) (n : Nat) :
    ∀ t ∈ railPattern rails n, 0 ≤ t ∧ t < rails :=
  railWalk_bounds rails h2 n 0 1 (by omega) (by omega) (Or.inl rfl)
    (fun _ => by omega) (by omega)

/-- Selecting from a cons peels the head when its tag matches. -/
theorem railSelect_cons (x : Char) (xs : List Char) (t : Int) (ts : List Int)
    (r : Int) :
    railSelect (x :: xs) (t :: ts) r =
      if t = r then x :: railSelect xs ts r else railSelect xs ts r := by
  by_cases h : t = r <;> simp [railSelect, h]

/-- A rail's bucket holds as many characters as the pattern names that
rail. -/
theorem railSelect_length :
    ∀ (xs : List Char) (ts : List Int) (r : Int), ts.length = xs.length →
      (railSelect xs ts r).length = ts.count r := by
  intro xs
  induction xs with
  | nil =>
    intro ts r hlen
    cases ts with
    | nil => rfl
    | cons a b => simp at hlen
  | cons x xs ih =>
    intro ts r hlen
    cases ts with
    | nil => simp at hlen
    | cons t ts =>
      rw [railSelect_cons, List.count_cons]
      by_cases h : t = r
      · rw [if_pos h, List.length_cons, ih ts r (by simpa using hlen)]
        simp [h]
      · rw [if_neg h, ih ts r (by simpa using hlen)]
        simp [h]

/-- Pointwise sum of two mapped functions. -/
theorem sum_map_add {α : Type} (l : List α) (f g : α → Nat) :
    (l.map (fun r => f r + g r)).sum = (l.map f).sum + (l.map g).sum := by
  induction l with
  | nil => rfl
  | cons a l ih =>
    simp only [List.map_cons, List.sum_cons, ih]
    omega

/-- Indicator sum over an initial segment. -/
theorem indicator_sum (t : Int) (k : Nat) :
    ((List.range k).map (fun (r : Nat) => if t = (r : Int) then (1 : Nat) else 0)).sum =
      if 0 ≤ t ∧ t < (k : Int) then 1 else 0 := by
  induction k with
  | zero =>
    simp only [List.range_zero, List.map_nil, List.sum_nil]
    rw [if_neg (by omega)]
  | succ k ih =>
    rw [List.range_succ, List.map_append, List.sum_append, ih]
    simp only [List.map_cons, List.map_nil, List.sum_cons, List.sum_nil]
    by_cases h1 : t = (k : Int)
    · rw [if_pos h1, if_neg (by omega), if_pos (by omega)]
      omega
    · rw [if_neg h1]
      by_cases h2 : 0 ≤ t ∧ t < (k : Int)
      · rw [if_pos h2, if_pos (by omega)]
        omega
      · rw [if_neg h2, if_neg (by omega)]
        omega

/-- The per-rail counts of an in-range tag list sum to its length. -/
theorem sum_counts (k : Nat) :
    ∀ ts : List Int, (∀ t ∈ ts, 0 ≤ t ∧ t < (k : Int)) →
      ((List.range k).map (fun (r : Nat) => ts.count ((r : Int)))).sum = ts.length := by
  intro ts
  induction ts with
  | nil =>
    intro _
    simp
  | cons t ts ih =>
    intro hb
    have hcount : ∀ r : Nat, (t :: ts).count ((r : Int)) =
        ts.count ((r : Int)) + (if t = (r : Int) then 1 else 0) := by
      intro r
      rw [List.count_cons]
      simp [beq_iff_eq]
    rw [List.map_congr_left (fun r _ => hcount r), sum_map_add,
      ih (fun u hu => hb u (List.mem_cons_of_mem t hu)), indicator_sum,
      if_pos (hb t (List.mem_cons_self t ts))]
    simp

/-- Slicing a flattened list by the piece lengths recovers the pieces. -/
theorem splitByCounts_flatten :
    ∀ L : List (List Char), splitByCounts L.flatten (L.map List.length) = L := by
  intro L
  induction L with
  | nil => rfl
  | cons a L ih =>
    rw [List.flatten_cons, List.map_cons, splitByCounts, List.take_left,
      List.drop_left, ih]

/-- Reading the buckets back along the tags yields the original list. -/
theorem readFence_buckets (k : Nat) :
    ∀ (ts : List Int) (xs : List Char), ts.length = xs.length →
      (∀ t ∈ ts, 0 ≤ t ∧ t < (k : Int)) →
      readFence ts ((List.range k).map (fun (r : Nat) => railSelect xs ts ((r : Int)))) =
        xs := by
  intro ts
  induction ts with
  | nil =>
    intro xs hlen _
    cases xs with
    | nil => rfl
    | cons x xs => simp at hlen
  | cons t ts ih =>
    intro xs hlen hb
    cases xs with
    | nil => simp at hlen
    | cons x xs =>
      have ht := hb t (List.mem_cons_self t ts)
      have htn : t.toNat < k := by omega
      have hofnat : (t.toNat : Int) = t := by omega
      have hbucket : ∀ i : Nat, i < k →
          ((List.range k).map
            (fun (r : Nat) => railSelect (x :: xs) (t :: ts) ((r : Int))))[i]? =
            some (railSelect (x :: xs) (t :: ts) ((i : Int))) := by
        intro i hi
        rw [List.getElem?_map, List.getElem?_range hi]
        rfl
      have hlenmap : ((List.range k).map
          (fun (r : Nat) => railSelect (x :: xs) (t :: ts) ((r : Int)))).length = k := by
        simp
      have hcell : ((List.range k).map
          (fun (r : Nat) => railSelect (x :: xs) (t :: ts) ((r : Int)))).getD t.toNat [] =
          x :: railSelect xs ts t := by
        rw [List.getD_eq_getElem?_getD, hbucket t.toNat htn]
        rw [hofnat, railSelect_cons, if_pos rfl]
        rfl
      rw [readFence.eq_def]
      dsimp only
      rw [hcell]
      dsimp only
      have hset : ((List.range k).map
            (fun (r : Nat) => railSelect (x :: xs) (t :: ts) ((r : Int)))).set t.toNat
            (railSelect xs ts t) =
          (List.range k).map (fun (r : Nat) => railSelect xs ts ((r : Int))) := by
        refine List.ext_getElem? fun i => ?_
        by_cases hik : i < k
        · by_cases hit : i = t.toNat
          · subst hit
            rw [List.getElem?_set_self (by rw [hlenmap]; exact hik),
              List.getElem?_map, List.getElem?_range hik]
            rw [show Option.map (fun (r : Nat) => railSelect xs ts ((r : Int)))
              (some t.toNat) = some (railSelect xs ts ((t.toNat : Int))) from rfl]
            rw [hofnat]
          · rw [List.getElem?_set_ne (fun h => hit h.symm), hbucket i hik,
              List.getElem?_map, List.getElem?_range hik]
            rw [show Option.map (fun (r : Nat) => railSelect xs ts ((r : Int))) (some i) =
              some (railSelect xs ts ((i : Int))) from rfl]
            rw [railSelect_cons, if_neg (by omega)]
        · have hk1 : (((List.range k).map
              (fun (r : Nat) => railSelect (x :: xs) (t :: ts) ((r : Int)))).set t.toNat
              (railSelect xs ts t)).length ≤ i := by
            rw [List.length_set, hlenmap]; omega
          have hk2 : ((List.range k).map
              (fun (r : Nat) => railSelect xs ts ((r : Int)))).length ≤ i := by
            simp; omega
          rw [List.getElem?_eq_none hk1, List.getElem?_eq_none hk2]
      rw [hset]
      exact congrArg (x :: ·)
        (ih xs (by simpa using hlen) (fun u hu => hb u (List.mem_cons_of_mem t hu)))

/-- Encryption permutes, so it preserves the length. -/
theorem railFenceEncCore_length (xs : List Char) (k : Nat) (h2 : 2 ≤ k) :
    (railFenceEncCore xs k).length = xs.length := by
  unfold railFenceEncCore
  rw [List.length_flatten, List.map_map]
  have hlen : (railPattern (k : Int) xs.length).length = xs.length :=
    railWalk_length (k : Int) xs.length 0 1
  have hsel : ∀ r ∈ List.range k,
      (List.length ∘ fun (r : Nat) => railSelect xs (railPattern (k : Int) xs.length)
        ((r : Int))) r =
      (fun (r : Nat) => (railPattern (k : Int) xs.length).count ((r : Int))) r := by
    intro r _
    exact railSelect_length xs _ ((r : Int)) hlen
  rw [List.map_congr_left hsel,
    sum_counts k _ (railPattern_bounds (k : Int) (by omega) xs.length), hlen]

/-- Decrypting an encryption recovers the plaintext, for any rail count of
at least two. -/
theorem railFence_core_roundtrip (xs : List Char) (k : Nat) (h2 : 2 ≤ k) :
    railFenceDecCore (railFenceEncCore xs k) k = xs := by
  have hlen : (railPattern (k : Int) xs.length).length = xs.length :=
    railWalk_length (k : Int) xs.length 0 1
  have hb := railPattern_bounds (k : Int) (by omega) xs.length
  unfold railFenceDecCore
  rw [railFenceEncCore_length xs k h2]
  have hcounts : (List.range k).map
      (fun (r : Nat) => (railPattern (k : Int) xs.length).count ((r : Int))) =
      ((List.range k).map (fun (r : Nat) => railSelect xs (railPattern (k : Int) xs.length)
        ((r : Int)))).map List.length := by
    rw [List.map_map]
    refine List.map_congr_left fun r _ => ?_
    exact (railSelect_length xs _ ((r : Int)) hlen).symm
  rw [hcounts]
  rw [show railFenceEncCore xs k = ((List.range k).map
    (fun (r : Nat) => railSelect xs (railPattern (k : Int) xs.length)
      ((r : Int)))).flatten from rfl]
  rw [splitByCounts_flatten]
  exact readFence_buckets k _ xs hlen hb

/-- C6 counterexample: with 11 rails and an 11-character input — so the
claimed premise `2 ≤ rails ≤ len(x)` holds — Rail Fence does not
round-trip: the code rejects every rail count above 10 outright. -/
theorem railFence_rails11_counterexample :
    2 ≤ 11 ∧ 11 ≤ "abcdefghijk".data.length ∧
      railFenceFn "abcdefghijk" [("rails", Value.num 11)] =
        Except.error "Number of rails must be between 2 and 10" :=
  ⟨by decide, by decide, by decide⟩

/-- Both Rail Fence directions at a rails parameter resolving to
`k ∈ [2, 10]`: the decrypt-after-encrypt composition is the identity, and
an input shorter than the rail count passes through both directions
unchanged. -/
theorem railFence_fn_roundtrip (x : String) (k : Nat) (params : Params)
    (h2 : 2 ≤ k) (h10 : k ≤ 10) (hr : railsParam params = (k : Int)) :
    ((railFenceFn x params).bind (fun y => railFenceDecryptFn y params) =
        Except.ok x) ∧
      (x.data.length < k → railFenceFn x params = Except.ok x ∧
        railFenceDecryptFn x params = Except.ok x) := by
  have hcond : ¬ ((k : Int) < 2 ∨ 10 < (k : Int)) := by omega
  have htoNat : ((k : Int)).toNat = k := by omega
  by_cases hshort : ((x.data.length : Int) < (k : Int))
  · have henc : railFenceFn x params = Except.ok x := by
      unfold railFenceFn
      dsimp only
      rw [hr, if_neg hcond, if_pos hshort]
    have hdec : railFenceDecryptFn x params = Except.ok x := by
      unfold railFenceDecryptFn
      dsimp only
      rw [hr, if_neg hcond, if_pos hshort]
    refine ⟨?_, fun _ => ⟨henc, hdec⟩⟩
    rw [henc]
    exact hdec
  · have henc : railFenceFn x params =
        Except.ok (String.mk (railFenceEncCore x.data k)) := by
      unfold railFenceFn
      dsimp only
      rw [hr, if_neg hcond, if_neg hshort, htoNat]
    have hdec : railFenceDecryptFn (String.mk (railFenceEncCore x.data k))
        params = Except.ok x := by
      unfold railFenceDecryptFn
      dsimp only
      rw [hr, if_neg hcond]
      rw [if_neg (by rw [railFenceEncCore_length x.data k h2]; exact hshort)]
      rw [htoNat, railFence_core_roundtrip x.data k h2]
    refine ⟨?_, fun hx => absurd (by exact_mod_cast hx) hshort⟩
    rw [henc]
    exact hdec

/-- C6 (amended).  The claimed range `rails ∈ [2, len(x)]` is wrong above
10: the code rejects every rail count outside `[2, 10]` with a range error.
Within `[2, 10]` the round trip does hold — decrypting an encryption
returns the input — and an input shorter than the rail count passes through
both directions unchanged. -/
theorem railFence_amended (x : String) (k : Nat) (h2 : 2 ≤ k) (h10 : k ≤ 10) :
    ((railFenceFn x [("rails", Value.num (k : Int))]).bind
        (fun y => railFenceDecryptFn y [("rails", Value.num (k : Int))]) =
      Except.ok x) ∧
    (x.data.length < k →
      railFenceFn x [("rails", Value.num (k : Int))] = Except.ok x ∧
        railFenceDecryptFn x [("rails", Value.num (k : Int))] =
          Except.ok x) := by
  have hr : railsParam [("rails", Value.num (k : Int))] = (k : Int) := by
    interval_cases k <;> rfl
  exact railFence_fn_roundtrip x k _ h2 h10 hr

/-- Witness for C6 (amended): the classic three-rail example round-trips,
and a two-character input is returned unchanged by both directions with
three rails. -/
theorem railFence_amended_witness :
    ((railFenceFn "WEAREDISCOVEREDFLEEATONCE" [("rails", Value.num 3)]).bind
        (fun y => railFenceDecryptFn y [("rails", Value.num 3)]) =
      Except.ok "WEAREDISCOVEREDFLEEATONCE") ∧
      (railFenceFn "ab" [("rails", Value.num 3)] = Except.ok "ab" ∧
        railFenceDecryptFn "ab" [("rails", Value.num 3)] = Except.ok "ab") :=
  ⟨(railFence_amended "WEAREDISCOVEREDFLEEATONCE" 3 (by decide) (by decide)).1,
    (railFence_amended "ab" 3 (by decide) (by decide)).2 (by decide)⟩

end CryptoToolkit
